import Mathlib

/-!
Verification of the movement & navigation core of the Avatarium repository.

The TypeScript sources are shallowly embedded: JavaScript numbers are
modelled as exact rationals (`ℚ`), 32-bit integer operations are modelled
on `ℕ`/`ℤ` with explicit reduction modulo 2^32, `Math.sin` is threaded as
an explicit function parameter `jsSin : ℚ → ℚ` (it is a fixed pure
function of the host), and ambient nondeterminism (`Math.random`) is
threaded as an explicit oracle `ℕ → ℚ` together with a consumption index.
Fallible operations return `Option`.
-/

namespace Avatarium

/-- JavaScript `Math.round`: round half toward positive infinity. -/
def jsRound (q : ℚ) : ℤ := ⌊q + 1/2⌋

/-- JavaScript `Math.abs` (kept kernel-computable). -/
def jsAbs (q : ℚ) : ℚ := if q < 0 then -q else q

/-- The IEEE-754 double value of `Math.PI`, as an exact rational. -/
def jsPI : ℚ := 884279719003555 / 281474976710656

/-- 2^32, the modulus of JavaScript 32-bit integer coercions. -/
def U32 : ℕ := 4294967296

/-! ### `src/utils/Noise.ts` — seeded 2D Perlin-style noise -/

namespace Noise

/-- `fade(t) = t*t*t*(t*(t*6-15)+10)`, the Perlin fade curve. -/
def fade (t : ℚ) : ℚ := t * t * t * (t * (t * 6 - 15) + 10)

/-- `lerp(t, a, b) = a + t * (b - a)`. -/
def lerp (t a b : ℚ) : ℚ := a + t * (b - a)

/-- `grad(hash, x, y, z)`: gradient selection by the low 4 bits of the hash. -/
def grad (hash : ℕ) (x y z : ℚ) : ℚ :=
  let h := hash % 16
  let u := if h < 8 then x else y
  let v := if h < 4 then y else if h = 12 ∨ h = 14 then x else z
  (if h % 2 = 0 then u else -u) + (if h &&& 2 = 0 then v else -v)

/-- One step of the linear-congruential generator used by the constructor
shuffle: `v = (v * 1664525 + 1013904223) % 4294967296`. -/
def lcgStep (v : ℕ) : ℕ := (v * 1664525 + 1013904223) % U32

/-- Swap two positions of a list (out-of-range indices leave it unchanged
up to the `getD` defaults, mirroring defined-index array swaps). -/
def listSwap (l : List ℕ) (i j : ℕ) : List ℕ :=
  (l.set i (l.getD j 0)).set j (l.getD i 0)

/-- The Fisher–Yates-style shuffle of the constructor, for `i` from 255
down to 1: advance the LCG, pick `r = v % (i+1)`, swap `p[i]` and `p[r]`. -/
def shuffleAux : ℕ → ℕ → List ℕ → List ℕ
  | 0, _, p => p
  | i + 1, v, p =>
    let v' := lcgStep v
    let r := v' % (i + 2)
    shuffleAux i v' (listSwap p (i + 1) r)

/-- The 256-entry permutation table built from an integer seed
(`v` starts at `seed * 12345`). -/
def permTable (seed : ℕ) : List ℕ := shuffleAux 255 (seed * 12345) (List.range 256)

/-- The duplicated 512-entry permutation as a lookup function:
`perm[i] = p[i & 255]`. -/
def noisePerm (seed : ℕ) : ℕ → ℕ := fun i => (permTable seed).getD (i % 256) 0

/-- `noise2D(x, y)` over an arbitrary permutation lookup: fade-curve
bilinear blend of the four corner gradients, normalized from `[-1,1]`
to `[0,1]` by `(res + 1) / 2`. -/
def noise2D (perm : ℕ → ℕ) (x y : ℚ) : ℚ :=
  let X : ℕ := ((⌊x⌋ : ℤ).emod 256).toNat
  let Y : ℕ := ((⌊y⌋ : ℤ).emod 256).toNat
  let xf : ℚ := x - ⌊x⌋
  let yf : ℚ := y - ⌊y⌋
  let u := fade xf
  let v := fade yf
  let A := perm X + Y
  let AA := perm A
  let AB := perm (A + 1)
  let B := perm (X + 1) + Y
  let BA := perm B
  let BB := perm (B + 1)
  let res := lerp v
    (lerp u (grad (perm AA) xf yf 0) (grad (perm BA) (xf - 1) yf 0))
    (lerp u (grad (perm AB) xf (yf - 1) 0) (grad (perm BB) (xf - 1) (yf - 1) 0))
  (res + 1) / 2

end Noise

/-! ### `src/utils/RNG.ts` — Mulberry32 -/

namespace RNG

/-- One `nextFloat()` call of the Mulberry32 generator: returns the new
(unreduced) state and the value in `[0,1)`.  All JavaScript 32-bit
coercions are modelled by reduction modulo 2^32 on the bit pattern. -/
def nextFloat (state : ℕ) : ℕ × ℚ :=
  let s := state + 0x6d2b79f5
  let t0 := s % U32
  let t1 := ((t0 ^^^ (t0 >>> 15)) * (t0 ||| 1)) % U32
  let t2 := t1 ^^^ ((t1 + ((t1 ^^^ (t1 >>> 7)) * (t1 ||| 61)) % U32) % U32)
  let out := t2 ^^^ (t2 >>> 14)
  (s, (out : ℚ) / 4294967296)

/-- `nextInt(min, max) = Math.floor(nextFloat() * (max - min)) + min`. -/
def nextInt (state : ℕ) (lo hi : ℤ) : ℕ × ℤ :=
  let (s, f) := nextFloat state
  (s, ⌊f * ((hi : ℚ) - lo)⌋ + lo)

end RNG

/-! ### `src/utils/Hash.ts` — FNV-1a string hash -/

/-- `stringToHash`: FNV-1a over the character codes of a string, returned
as an unsigned 32-bit value.  Strings are modelled as their char-code
lists. -/
def stringToHash (s : List ℕ) : ℕ :=
  s.foldl (fun h c => ((h ^^^ c) * 0x01000193) % U32) 0x811c9dc5

/-- The seed-string reduction shared by `Terrain` and `StructureManager`:
the sum of the character codes. -/
def charSum (s : List ℕ) : ℕ := s.foldl (· + ·) 0

/-! ### `src/world/Terrain.ts` -/

/-- The tile-type codes, in the order of `Terrain.TILE_TYPES`. -/
inductive TileType where
  | WATER | SAND | GRASS | DIRT | STONE | SNOW | ASPHALT
  deriving DecidableEq, Repr

def TILE_TYPES : List TileType :=
  [.WATER, .SAND, .GRASS, .DIRT, .STONE, .SNOW, .ASPHALT]

/-- Per-cell tile classification of `Terrain.generate`: threshold bands
over `noise2D(x*0.1, y*0.1)` followed by the road override on the sparse
lattice `x % 10 == 0 || y % 8 == 0` gated by a secondary noise sample. -/
def tileIdxAt (perm : ℕ → ℕ) (x y : ℕ) : ℕ :=
  let h := Noise.noise2D perm ((x : ℚ) * (1/10)) ((y : ℚ) * (1/10))
  let base : ℕ :=
    if h < 1/5 then 0
    else if h < 1/4 then 1
    else if h < 11/20 then 2
    else if h < 7/10 then 3
    else if h < 17/20 then 4
    else 5
  let isVerticalRoad := x % 10 = 0 ∧ 1/10 < h ∧ h < 7/10
  let isHorizontalRoad := y % 8 = 0 ∧ 1/10 < h ∧ h < 7/10
  let roadNoise := Noise.noise2D perm ((x : ℚ) * (1/2)) ((y : ℚ) * (1/2))
  if (isVerticalRoad ∨ isHorizontalRoad) ∧ base ≠ 0 ∧ base ≠ 1 ∧ 3/10 < roadNoise
  then 6 else base

inductive PropType where
  | TREE | BUSH | ROCK | FLOWER | BONFIRE
  deriving DecidableEq, Repr

structure TileProp where
  type : PropType
  x : ℕ
  y : ℕ
  variant : ℕ
  deriving DecidableEq, Repr

/-- Prop placement of `Terrain.generate`: on grass/dirt cells, the
fractional part of `sin(x*12.9898 + y*78.233 + seed) * 43758.5453`
above 0.92 places a bush (a tree above 0.97). -/
def propAt (perm : ℕ → ℕ) (jsSin : ℚ → ℚ) (seed : ℕ) (x y : ℕ) : Option TileProp :=
  let idx := tileIdxAt perm x y
  if idx = 2 ∨ idx = 3 then
    let propHash := jsSin ((x : ℚ) * 129898/10000 + (y : ℚ) * 78233/1000 + seed) * 437585453/10000
    let val := propHash - ⌊propHash⌋
    if 23/25 < val then
      some ⟨if 97/100 < val then .TREE else .BUSH, x, y, (⌊val * 100⌋.toNat) % 3⟩
    else none
  else none

structure TerrainData where
  width : ℕ
  height : ℕ
  tiles : List ℕ
  props : List ((ℕ × ℕ) × TileProp)
  deriving Repr

/-- The `Terrain` constructor.  `jsSin` is the host's fixed `Math.sin`;
`mathRandom` is the ambient randomness oracle, which the source never
consumes during terrain generation (the basis of the determinism
guarantee).  The props list records the `Map` insertions in loop order
(`x` outer, `y` inner). -/
def mkTerrain (w h : ℕ) (seedStr : List ℕ) (jsSin : ℚ → ℚ)
    (mathRandom : ℕ → ℚ) : TerrainData :=
  let seed := charSum seedStr
  let perm := Noise.noisePerm seed
  { width := w
    height := h
    tiles := (List.range (w * h)).map fun i => tileIdxAt perm (i % w) (i / w)
    props := (List.range w).flatMap fun x =>
      (List.range h).filterMap fun y => (propAt perm jsSin seed x y).map (((x, y), ·)) }

/-- `Terrain.getTile`: out-of-bounds reads return the `WATER` sentinel;
in-bounds reads index the row-major tile array. -/
def getTile (t : TerrainData) (x y : ℤ) : TileType :=
  if x < 0 ∨ (t.width : ℤ) ≤ x ∨ y < 0 ∨ (t.height : ℤ) ≤ y then .WATER
  else TILE_TYPES.getD (t.tiles.getD (y * t.width + x).toNat 0) .WATER

/-! ### `src/world/StructureManager.ts` (simple variant) and its
road-and-plaza variant (the repository file with `FOUNTAIN`/`BENCH`/
`SOCCER_FIELD` support) -/

inductive StructureType where
  | HOUSE_SMALL | HOUSE_MEDIUM | FOUNTAIN | LAMP_POST | BENCH | SOCCER_FIELD
  deriving DecidableEq, Repr

def StructureType.name : StructureType → String
  | .HOUSE_SMALL => "HOUSE_SMALL"
  | .HOUSE_MEDIUM => "HOUSE_MEDIUM"
  | .FOUNTAIN => "FOUNTAIN"
  | .LAMP_POST => "LAMP_POST"
  | .BENCH => "BENCH"
  | .SOCCER_FIELD => "SOCCER_FIELD"

structure Structure where
  id : String
  type : StructureType
  x : ℤ
  y : ℤ
  width : ℤ
  height : ℤ
  deriving DecidableEq, Repr

/-- `StructureManager.checkOverlap`: AABB test of a candidate footprint
against every already-placed structure. -/
def checkOverlap (structs : List Structure) (x y w h : ℤ) : Bool :=
  structs.any fun s =>
    decide (x < s.x + s.width ∧ s.x < x + w ∧ y < s.y + s.height ∧ s.y < y + h)

/-- The house-placement retry loop of the simple variant: each attempt
draws a type and an origin, rejects candidates near the world center,
overlapping an existing structure, or touching water (noise below 0.2
anywhere on the footprint), and otherwise places the house. -/
def placeHouses (w h : ℕ) (perm : ℕ → ℕ) (houseCount : ℕ) :
    ℕ → ℕ → ℕ → List Structure → List Structure
  | 0, _, _, acc => acc
  | fuel + 1, placed, rngState, acc =>
    if houseCount ≤ placed then acc else
    let r1 := RNG.nextFloat rngState
    let typ : StructureType := if 1/2 < r1.2 then .HOUSE_SMALL else .HOUSE_MEDIUM
    let width : ℤ := if 1/2 < r1.2 then 2 else 3
    let r2 := RNG.nextInt r1.1 2 ((w : ℤ) - width - 2)
    let r3 := RNG.nextInt r2.1 2 ((h : ℤ) - 2 - 2)
    let x := r2.2
    let y := r3.2
    if jsAbs ((x : ℚ) - (w : ℚ)/2) < 4 ∧ jsAbs ((y : ℚ) - (h : ℚ)/2) < 4 then
      placeHouses w h perm houseCount fuel placed r3.1 acc
    else if checkOverlap acc x y width 2 then
      placeHouses w h perm houseCount fuel placed r3.1 acc
    else if (List.range width.toNat).any fun dx => (List.range 2).any fun dy =>
        Noise.noise2D perm (((x + dx : ℤ) : ℚ) * (1/10)) (((y + dy : ℤ) : ℚ) * (1/10)) < 1/5 then
      placeHouses w h perm houseCount fuel placed r3.1 acc
    else
      placeHouses w h perm houseCount fuel (placed + 1) r3.1
        (acc ++ [⟨"struct_h_" ++ toString placed, typ, x, y, width, 2⟩])

/-- The lamp-post pass of the simple variant: a deterministic scan of the
assumed road lattice `x % 10 == 0 || y % 10 == 0`, gated by the
fractional part of `|sin(x*12.989 + y*78.233 + seed) * 43758.5453|`,
rejecting overlaps and water cells. -/
def placeLampsSimple (w h : ℕ) (seed : ℕ) (perm : ℕ → ℕ) (jsSin : ℚ → ℚ)
    (acc0 : List Structure) : List Structure :=
  (List.range w).foldl (fun accX (x : ℕ) =>
    (List.range h).foldl (fun acc (y : ℕ) =>
      if x % 10 = 0 ∨ y % 10 = 0 then
        let hash := jsAbs (jsSin ((x : ℚ) * 12989/1000 + (y : ℚ) * 78233/1000 + seed) * 437585453/10000)
        if 9/10 < hash - ⌊hash⌋ then
          if checkOverlap acc x y 1 1 then acc
          else if Noise.noise2D perm ((x : ℚ) * (1/10)) ((y : ℚ) * (1/10)) < 1/5 then acc
          else acc ++ [⟨"lamp_" ++ toString x ++ "_" ++ toString y, .LAMP_POST, x, y, 1, 1⟩]
        else acc
      else acc) accX) acc0

/-- `StructureManager.generate` of the simple variant.  `mathRandom` is
the ambient randomness oracle; the source consumes none of it. -/
def structuresSimple (w h : ℕ) (seedStr : List ℕ) (jsSin : ℚ → ℚ)
    (mathRandom : ℕ → ℚ) : List Structure :=
  let seed := charSum seedStr
  let perm := Noise.noisePerm seed
  let houseCount := (w * h) / 100
  let houses := placeHouses w h perm houseCount (houseCount * 5) 0 seed []
  placeLampsSimple w h seed perm jsSin houses

/-- The hardcoded prefix of the road-and-plaza variant: central fountain,
plaza lamps and benches at hand-authored offsets, and the soccer field
forced near a corner.  None of these pushes is overlap-checked. -/
def richBase (w h : ℕ) : List Structure :=
  let cx : ℤ := (w / 2 : ℕ)
  let cy : ℤ := (h / 2 : ℕ)
  let plaza : List (StructureType × ℤ × ℤ) :=
    [(.LAMP_POST, cx - 4, cy - 4), (.LAMP_POST, cx + 3, cy - 4),
     (.LAMP_POST, cx - 4, cy + 3), (.LAMP_POST, cx + 3, cy + 3),
     (.BENCH, cx - 3, cy - 1), (.BENCH, cx + 2, cy - 1),
     (.BENCH, cx - 1, cy - 3), (.BENCH, cx - 1, cy + 2)]
  let fx : ℤ := max 2 ((w : ℤ) - 12 - 4)
  let fy : ℤ := max 4 ((h / 6 : ℕ))
  ⟨"central_fountain", .FOUNTAIN, cx - 1, cy - 1, 2, 2⟩ ::
    (plaza.map fun it =>
      ⟨"plaza_" ++ it.1.name ++ "_" ++ toString it.2.1 ++ "_" ++ toString it.2.2,
        it.1, it.2.1, it.2.2, 1, 1⟩) ++
    [⟨"soccer_field_main", .SOCCER_FIELD, fx, fy, 12, 8⟩]

/-- The terrain mutation of the road-and-plaza variant: the soccer-field
footprint is forced to the `SOCCER_GRASS` tile code (index 7 of that
variant's `TILE_TYPES`). -/
def carveField (w h : ℕ) (fx fy : ℤ) (tiles : List ℕ) : List ℕ :=
  (List.range 12).foldl (fun acc dx =>
    (List.range 8).foldl (fun acc2 dy =>
      if fx + dx < (w : ℤ) ∧ fy + dy < (h : ℤ) then
        acc2.set ((fy + dy) * w + (fx + dx)).toNat 7
      else acc2) acc) tiles

/-- The footprint-and-margin scan cells of the road-variant house loop:
`dx ∈ [-1, width+1]`, `dy ∈ [-1, height+1]`. -/
def houseScanCells (width height : ℤ) : List (ℤ × ℤ) :=
  ((List.range (width.toNat + 3)).map fun i => (i : ℤ) - 1).flatMap fun dx =>
    ((List.range (height.toNat + 3)).map fun i => (i : ℤ) - 1).map fun dy => (dx, dy)

/-- A scan cell aborts a road-variant house candidate when its noise is
below the water band or above the mountain band, or when it is an
organic road cell lying inside the footprint proper. -/
def cellBadRich (perm : ℕ → ℕ) (x y width height : ℤ) (c : ℤ × ℤ) : Bool :=
  let cX := x + c.1
  let cY := y + c.2
  let hv := Noise.noise2D perm ((cX : ℚ) * (1/10)) ((cY : ℚ) * (1/10))
  if hv < 1/5 ∨ 7/10 < hv then true
  else decide ((cX % 10 = 0 ∨ cY % 8 = 0) ∧
    3/10 < Noise.noise2D perm ((cX : ℚ) * (1/2)) ((cY : ℚ) * (1/2)) ∧
    0 ≤ c.1 ∧ c.1 < width ∧ 0 ≤ c.2 ∧ c.2 < height)

/-- A scan cell contributes to the road-adjacency score when it is a
noise-valid organic road cell outside the footprint proper. -/
def cellScoreRich (perm : ℕ → ℕ) (x y width height : ℤ) (c : ℤ × ℤ) : Bool :=
  let cX := x + c.1
  let cY := y + c.2
  let hv := Noise.noise2D perm ((cX : ℚ) * (1/10)) ((cY : ℚ) * (1/10))
  if hv < 1/5 ∨ 7/10 < hv then false
  else decide ((cX % 10 = 0 ∨ cY % 8 = 0) ∧
    3/10 < Noise.noise2D perm ((cX : ℚ) * (1/2)) ((cY : ℚ) * (1/2)) ∧
    ¬(0 ≤ c.1 ∧ c.1 < width ∧ 0 ≤ c.2 ∧ c.2 < height))

/-- The house-placement retry loop of the road-and-plaza variant:
rejects candidates near the center, below the beach row, overlapping, on
water/mountain noise, lying on a road, or not adjacent to any road. -/
def placeHousesRich (w h : ℕ) (perm : ℕ → ℕ) (houseCount : ℕ) :
    ℕ → ℕ → ℕ → List Structure → List Structure
  | 0, _, _, acc => acc
  | fuel + 1, placed, rngState, acc =>
    if houseCount ≤ placed then acc else
    let r1 := RNG.nextFloat rngState
    let typ : StructureType := if 7/10 < r1.2 then .HOUSE_MEDIUM else .HOUSE_SMALL
    let width : ℤ := if 7/10 < r1.2 then 3 else 2
    let r2 := RNG.nextInt r1.1 2 ((w : ℤ) - width - 2)
    let r3 := RNG.nextInt r2.1 2 ((h : ℤ) - 2 - 2)
    let x := r2.2
    let y := r3.2
    if jsAbs ((x : ℚ) - (w : ℚ)/2) < 6 ∧ jsAbs ((y : ℚ) - (h : ℚ)/2) < 6 then
      placeHousesRich w h perm houseCount fuel placed r3.1 acc
    else if (h : ℤ) - 14 < y then
      placeHousesRich w h perm houseCount fuel placed r3.1 acc
    else if checkOverlap acc x y width 2 then
      placeHousesRich w h perm houseCount fuel placed r3.1 acc
    else if ((houseScanCells width 2).any (cellBadRich perm x y width 2)) ∨
        (houseScanCells width 2).countP (fun c => cellScoreRich perm x y width 2 c) = 0 then
      placeHousesRich w h perm houseCount fuel placed r3.1 acc
    else
      placeHousesRich w h perm houseCount fuel (placed + 1) r3.1
        (acc ++ [⟨"struct_h_" ++ toString placed, typ, x, y, width, 2⟩])

structure LampSpot where
  x : ℕ
  y : ℕ
  score : ℤ
  deriving DecidableEq, Repr

/-- The candidate lamp spots of the road-and-plaza variant: noise-valid
organic road cells scored by Manhattan proximity to placed houses. -/
def lampSpots (w h : ℕ) (perm : ℕ → ℕ) (structs : List Structure) : List LampSpot :=
  (List.range w).flatMap fun (x : ℕ) =>
    (List.range h).filterMap fun (y : ℕ) =>
      let hv := Noise.noise2D perm ((x : ℚ) * (1/10)) ((y : ℚ) * (1/10))
      if hv < 1/5 ∨ 7/10 < hv then none
      else if (x % 10 = 0 ∨ y % 8 = 0) ∧
          3/10 < Noise.noise2D perm ((x : ℚ) * (1/2)) ((y : ℚ) * (1/2)) then
        let score := structs.foldl (fun sc s =>
          if s.type = .HOUSE_SMALL ∨ s.type = .HOUSE_MEDIUM then
            let dist := |(x : ℤ) - s.x| + |(y : ℤ) - s.y|
            if dist < 8 then sc + (10 - dist) else sc
          else sc) 0
        if 0 < score then some ⟨x, y, score⟩ else none
      else none

/-- Stable insertion into a descending-score list (the later element goes
after equal scores, matching JavaScript's stable sort with comparator
`(a, b) => b.score - a.score`). -/
def insertSpotDesc (s : LampSpot) : List LampSpot → List LampSpot
  | [] => [s]
  | t :: ts => if s.score ≤ t.score then t :: insertSpotDesc s ts else s :: t :: ts

def sortSpotsDesc (l : List LampSpot) : List LampSpot :=
  l.foldl (fun acc s => insertSpotDesc s acc) []

/-- The greedy lamp acceptance of the road-and-plaza variant: walk the
sorted spots, stopping at `maxLamps`, skipping spots within Manhattan
distance 15 of an accepted lamp or overlapping a structure. -/
def placeLampsRich (maxLamps : ℕ) :
    List LampSpot → List Structure → List (ℤ × ℤ) → ℕ → List Structure
  | [], acc, _, _ => acc
  | spot :: rest, acc, placedL, cnt =>
    if maxLamps ≤ cnt then acc
    else if placedL.any fun l => |l.1 - (spot.x : ℤ)| + |l.2 - (spot.y : ℤ)| < 15 then
      placeLampsRich maxLamps rest acc placedL cnt
    else if checkOverlap acc spot.x spot.y 1 1 then
      placeLampsRich maxLamps rest acc placedL cnt
    else
      placeLampsRich maxLamps rest
        (acc ++ [⟨"lamp_" ++ toString spot.x ++ "_" ++ toString spot.y,
          .LAMP_POST, spot.x, spot.y, 1, 1⟩])
        (placedL ++ [((spot.x : ℤ), (spot.y : ℤ))]) (cnt + 1)

/-- `StructureManager.generate` of the road-and-plaza variant: hardcoded
fountain, plaza items and soccer field (with the terrain carve), then the
road-adjacent house loop, then the scored lamp pass.  Returns the mutated
tile array together with the structure list. -/
def structuresRich (w h : ℕ) (seedStr : List ℕ) (tiles : List ℕ) :
    List ℕ × List Structure :=
  let seed := charSum seedStr
  let perm := Noise.noisePerm seed
  let fx : ℤ := max 2 ((w : ℤ) - 12 - 4)
  let fy : ℤ := max 4 ((h / 6 : ℕ))
  let tiles' := carveField w h fx fy tiles
  let base := richBase w h
  let houseCount := (w * h) / 100
  let withHouses := placeHousesRich w h perm houseCount (houseCount * 10) 0 seed base
  let maxLamps := max 3 ((w * h) / 600)
  let spots := sortSpotsDesc (lampSpots w h perm withHouses)
  (tiles', placeLampsRich maxLamps spots withHouses [] 0)

/-- A point of the plane lies in a structure's half-open footprint
`[x, x+width) × [y, y+height)`. -/
def footContains (s : Structure) (px py : ℚ) : Prop :=
  (s.x : ℚ) ≤ px ∧ px < (s.x : ℚ) + (s.width : ℚ) ∧
    (s.y : ℚ) ≤ py ∧ py < (s.y : ℚ) + (s.height : ℚ)

instance (s : Structure) (px py : ℚ) : Decidable (footContains s px py) := by
  unfold footContains; infer_instance

/-- Two structures' footprint rectangles do not intersect. -/
def footDisjoint (a b : Structure) : Prop :=
  ∀ px py : ℚ, ¬(footContains a px py ∧ footContains b px py)

/-! ### `src/cosmetics/Catalog.ts` and `src/cosmetics/Generator.ts`

Cosmetic items are embedded by their identity and rarity; the `draw`
members are canvas-rendering callbacks outside the specified core. -/

inductive Rarity where
  | COMMON | RARE | EPIC | LEGENDARY
  deriving DecidableEq, Repr

structure CosmeticItem where
  id : String
  rarity : Rarity
  deriving DecidableEq, Repr

def BACK_ITEMS : List CosmeticItem := [⟨"none", .COMMON⟩, ⟨"backpack", .COMMON⟩]

def BOTTOM_ITEMS : List CosmeticItem := [⟨"pants", .COMMON⟩, ⟨"shorts", .COMMON⟩]

def SHOES_ITEMS : List CosmeticItem := [⟨"sneakers", .COMMON⟩, ⟨"boots", .RARE⟩]

def TOP_ITEMS : List CosmeticItem := [⟨"tshirt", .COMMON⟩, ⟨"hoodie", .RARE⟩]

def FACE_ITEMS : List CosmeticItem :=
  [⟨"none", .COMMON⟩, ⟨"glasses", .COMMON⟩, ⟨"mask", .EPIC⟩]

def HAT_ITEMS : List CosmeticItem :=
  [⟨"none", .COMMON⟩, ⟨"cap", .COMMON⟩, ⟨"crown", .LEGENDARY⟩, ⟨"halo", .LEGENDARY⟩]

def PALETTES : List (String × String) :=
  [("#FF5252", "#FFEB3B"), ("#448AFF", "#B2EBF2"), ("#69F0AE", "#B9F6CA"),
   ("#E040FB", "#EA80FC"), ("#FF6E40", "#FF9E80"), ("#333333", "#9E9E9E"),
   ("#FFFFFF", "#EEEEEE")]

structure CosmeticStyle where
  primaryColor : String
  secondaryColor : String
  pattern : Option String
  deriving DecidableEq, Repr

structure LoadoutEntry where
  item : CosmeticItem
  style : CosmeticStyle
  deriving DecidableEq, Repr

/-- A loadout, one entry per cosmetic slot. -/
structure Loadout where
  hat : LoadoutEntry
  face : LoadoutEntry
  top : LoadoutEntry
  bottom : LoadoutEntry
  shoes : LoadoutEntry
  back : LoadoutEntry
  deriving DecidableEq, Repr

/-- `pickItem`: one rarity roll, tier thresholds 0.99/0.90/0.60, filter by
tier with a `COMMON` fallback, then a uniform pick. -/
def pickItem (state : ℕ) (items : List CosmeticItem) : ℕ × CosmeticItem :=
  let (s1, roll) := RNG.nextFloat state
  let tier : Rarity :=
    if 99/100 < roll then .LEGENDARY
    else if 9/10 < roll then .EPIC
    else if 3/5 < roll then .RARE
    else .COMMON
  let candidates := items.filter (·.rarity = tier)
  let candidates := if candidates.isEmpty then items.filter (·.rarity = .COMMON) else candidates
  if candidates.isEmpty then (s1, items.headD ⟨"", .COMMON⟩)
  else
    let (s2, idx) := RNG.nextInt s1 0 candidates.length
    (s2, candidates.getD idx.toNat ⟨"", .COMMON⟩)

/-- `pickColor`: a uniform palette pick and a 50% primary/secondary swap. -/
def pickColor (state : ℕ) : ℕ × String × String :=
  let (s1, idx) := RNG.nextInt state 0 PALETTES.length
  let palette := PALETTES.getD idx.toNat ("", "")
  let (s2, f) := RNG.nextFloat s1
  if 1/2 < f then (s2, palette.2, palette.1) else (s2, palette.1, palette.2)

/-- One slot of `generateLoadout`: item pick, color pick, then the
optional pattern (a second roll is consumed only when the first exceeds
0.7). -/
def genLoadoutEntry (state : ℕ) (items : List CosmeticItem) : ℕ × LoadoutEntry :=
  let (s1, item) := pickItem state items
  let (s2, colors) := pickColor s1
  let (s3, f1) := RNG.nextFloat s2
  if 7/10 < f1 then
    let (s4, f2) := RNG.nextFloat s3
    (s4, ⟨item, ⟨colors.1, colors.2, some (if 1/2 < f2 then "dots" else "stripes")⟩⟩)
  else
    (s3, ⟨item, ⟨colors.1, colors.2, none⟩⟩)

/-- `generateLoadout(seed)`: a fresh Mulberry32 stream drawn through the
slots in order hat, face, top, bottom, shoes, back. -/
def generateLoadout (seed : ℕ) : Loadout :=
  let (s1, hat) := genLoadoutEntry seed HAT_ITEMS
  let (s2, face) := genLoadoutEntry s1 FACE_ITEMS
  let (s3, top) := genLoadoutEntry s2 TOP_ITEMS
  let (s4, bottom) := genLoadoutEntry s3 BOTTOM_ITEMS
  let (s5, shoes) := genLoadoutEntry s4 SHOES_ITEMS
  let (_, back) := genLoadoutEntry s5 BACK_ITEMS
  ⟨hat, face, top, bottom, shoes, back⟩

/-! ### `src/world/EntityManager.ts` -/

inductive Temperament where
  | SHY | SOCIAL | EXPLORER
  deriving DecidableEq, Repr

inductive CState where
  | IDLE | MOVING | SITTING
  deriving DecidableEq, Repr

/-- An agent.  Optional numbers of the source are `Option` fields; the
`color` field records the hue of the generated `hsl(hue, 70%, 50%)`
string, which determines it. -/
structure Creature where
  id : String
  name : List ℕ
  x : ℚ
  y : ℚ
  color : ℚ
  targetX : Option ℚ := none
  targetY : Option ℚ := none
  moveProgress : ℚ
  path : Option (List (ℚ × ℚ)) := none
  idleTimer : Option ℚ := none
  state : Option CState := none
  isPlayer : Option Bool := none
  seed : ℕ
  loadout : Loadout
  temperament : Temperament
  animPhase : ℚ
  speedMultiplier : Option ℚ := none
  deriving DecidableEq, Repr

def temperaments : List Temperament := [.SHY, .SOCIAL, .EXPLORER]

/-- `createCreature(name, x, y, variant)`: the deterministic attribute
seed is `stringToHash(name) + variant`; color, temperament and animation
phase are the first three draws of a Mulberry32 stream seeded with it,
and the loadout uses a fresh stream with the same seed.  `uuid` threads
the nondeterministic `generateUUID()` result. -/
def createCreature (name : List ℕ) (x y : ℚ) (variant : ℕ) (uuid : String) : Creature :=
  let seed := stringToHash name + variant
  let (s1, f1) := RNG.nextFloat seed
  let (s2, f2) := RNG.nextFloat s1
  let (_, f3) := RNG.nextFloat s2
  { id := uuid
    name := name
    x := x
    y := y
    color := f1 * 360
    moveProgress := 0
    seed := seed
    loadout := generateLoadout seed
    temperament := temperaments.getD (⌊f2 * 3⌋).toNat .SHY
    animPhase := f3 * jsPI * 2 }

/-- The persisted record as far as `hydrateCreature` consumes it
(`const { id, name, x, y } = dbData`). -/
structure DBRecord where
  id : String
  name : List ℕ
  x : ℚ
  y : ℚ
  deriving DecidableEq, Repr

/-- The fields `AvatarService.create` stores that hydration reads. -/
def mkRecord (c : Creature) : DBRecord := ⟨c.id, c.name, c.x, c.y⟩

/-- `hydrateCreature(dbData)`: re-derives the deterministic attributes
from `stringToHash(name)` alone. -/
def hydrateCreature (r : DBRecord) : Creature :=
  let seed := stringToHash r.name
  let (s1, f1) := RNG.nextFloat seed
  let (s2, f2) := RNG.nextFloat s1
  let (_, f3) := RNG.nextFloat s2
  { id := r.id
    name := r.name
    x := r.x
    y := r.y
    color := f1 * 360
    moveProgress := 0
    seed := seed
    loadout := generateLoadout seed
    temperament := temperaments.getD (⌊f2 * 3⌋).toNat .SHY
    animPhase := f3 * jsPI * 2 }

/-! ### `src/world/Pathfinding.ts` — grid A*

Grid points are pairs of rationals (JavaScript numbers); the string keys
`` `${x},${y}` `` of the source are in bijection with the pairs, so keys
are modelled by the points themselves.  Node objects live in a key-indexed
association list; `parent` references are stored as keys, which is
faithful because a node becomes a parent only when it is expanded, after
which it is in the closed set and never mutated again.  The unbounded
`while` loop is modelled with explicit fuel `maxNodes + 2`, which theorem
`findPath_terminates` below proves sufficient. -/

abbrev Pt := ℚ × ℚ

namespace Pathfinding

/-- The mutable per-node payload: cost from start, heuristic, parent key. -/
structure SNode where
  g : ℚ
  h : ℚ
  parent : Option Pt
  deriving DecidableEq, Repr

/-- `isValid(x, y)`: strict world-bounds check. -/
def isValid (W H x y : ℚ) : Bool := decide (0 ≤ x ∧ x < W ∧ 0 ≤ y ∧ y < H)

/-- The Manhattan-distance heuristic. -/
def heuristic (a b : Pt) : ℚ := jsAbs (a.1 - b.1) + jsAbs (a.2 - b.2)

def assocFind : List (Pt × SNode) → Pt → Option SNode
  | [], _ => none
  | kv :: rest, k => if kv.1 = k then some kv.2 else assocFind rest k

/-- In-place node mutation (`gCost`/`parent` update of an open node). -/
def assocUpdate (nodes : List (Pt × SNode)) (k : Pt) (v : SNode) : List (Pt × SNode) :=
  nodes.map fun kv => if kv.1 = k then (k, v) else kv

/-- `fCost` of the node stored under a key (every sorted key is in the
map; the default covers totality only). -/
def nodeF (nodes : List (Pt × SNode)) (k : Pt) : ℚ :=
  match assocFind nodes k with
  | some nd => nd.g + nd.h
  | none => 0

/-- Stable insertion by ascending `fCost`: a later element goes after
earlier elements of equal cost, matching JavaScript's stable
`sort((a, b) => a.fCost - b.fCost)`. -/
def insertByF (nodes : List (Pt × SNode)) (k : Pt) : List Pt → List Pt
  | [] => [k]
  | j :: js => if nodeF nodes j ≤ nodeF nodes k then j :: insertByF nodes k js
    else k :: j :: js

def sortByF (nodes : List (Pt × SNode)) (l : List Pt) : List Pt :=
  l.foldl (fun acc k => insertByF nodes k acc) []

/-- The 4-way direction list, in source order. -/
def dirs : List (ℚ × ℚ) := [(0, 1), (0, -1), (1, 0), (-1, 0)]

/-- `getNeighbors`: in-bounds, unblocked 4-neighbors. -/
def neighborsOf (W H : ℚ) (blocked : ℚ → ℚ → Bool) (p : Pt) : List Pt :=
  dirs.filterMap fun d =>
    if isValid W H (p.1 + d.1) (p.2 + d.2) && !blocked (p.1 + d.1) (p.2 + d.2) then
      some (p.1 + d.1, p.2 + d.2)
    else none

/-- Processing of one neighbor: skip closed keys; push unknown keys onto
the open list and the node map with `g = current.g + 1`; relax known keys
when the new cost is strictly smaller. -/
def relaxNeighbor (endP cur : Pt) (curG : ℚ) (closed : List Pt)
    (st : List Pt × List (Pt × SNode)) (npos : Pt) : List Pt × List (Pt × SNode) :=
  if npos ∈ closed then st
  else
    match assocFind st.2 npos with
    | none =>
      (st.1 ++ [npos], st.2 ++ [(npos, ⟨curG + 1, heuristic npos endP, some cur⟩)])
    | some nd =>
      if curG + 1 < nd.g then (st.1, assocUpdate st.2 npos ⟨curG + 1, nd.h, some cur⟩)
      else st

/-- The parent-pointer walk of `reconstructPath`, with fuel (the source
walks object references; chains are acyclic because `g` strictly
decreases toward the start). -/
def walkParents (nodes : List (Pt × SNode)) : ℕ → Pt → List Pt
  | 0, _ => []
  | fuel + 1, k =>
    k :: (match assocFind nodes k with
      | some nd =>
        match nd.parent with
        | some pk => walkParents nodes fuel pk
        | none => []
      | none => [])

/-- `reconstructPath`: goal-to-start chain, reversed, start dropped. -/
def reconstructPath (nodes : List (Pt × SNode)) (endNode : Pt) : List Pt :=
  ((walkParents nodes (nodes.length + 1) endNode).reverse).drop 1

/-- The A* main loop.  Each iteration sorts the open list by `fCost`,
shifts the head, returns on the goal, otherwise closes the node, counts
it against `maxNodes`, and folds the neighbor relaxation over `dirs`. -/
def aloop (W H : ℚ) (blocked : ℚ → ℚ → Bool) (endP : Pt) (maxNodes : ℕ) :
    ℕ → List Pt → List Pt → List (Pt × SNode) → ℕ → Option (Option (List Pt))
  | 0, _, _, _, _ => none
  | fuel + 1, opn, closed, nodes, explored =>
    match sortByF nodes opn with
    | [] => some none
    | cur :: rest =>
      if cur = endP then some (some (reconstructPath nodes cur))
      else
        let closed' := cur :: closed
        let explored' := explored + 1
        if maxNodes < explored' then some none
        else
          let curG := match assocFind nodes cur with | some nd => nd.g | none => 0
          let st := (neighborsOf W H blocked cur).foldl
            (relaxNeighbor endP cur curG closed') (rest, nodes)
          aloop W H blocked endP maxNodes fuel st.1 closed' st.2 explored'

/-- `findPath(start, end, maxNodes = 1000)`: bounds and blocked-goal
validation, then the A* loop from the start node. -/
def findPath (W H : ℚ) (blocked : ℚ → ℚ → Bool) (s e : Pt)
    (maxNodes : ℕ := 1000) : Option (List Pt) :=
  if !isValid W H s.1 s.2 || !isValid W H e.1 e.2 then none
  else if blocked e.1 e.2 then none
  else
    (aloop W H blocked e maxNodes (maxNodes + 2)
      [s] [] [(s, ⟨0, heuristic s e, none⟩)] 0).getD none

/-- Graph reachability through in-bounds, unblocked unit steps — the
relation the A* search explores. -/
inductive Reachable (W H : ℚ) (blocked : ℚ → ℚ → Bool) (s : Pt) : Pt → Prop
  | base : Reachable W H blocked s s
  | step {p q : Pt} : Reachable W H blocked s p → q ∈ neighborsOf W H blocked p →
      Reachable W H blocked s q

end Pathfinding

/-! ### `src/world/MovementSystem.ts` -/

namespace Movement

def MOVE_SPEED : ℚ := 3/2

/-- The tick-start occupancy snapshot: every agent's rounded current tile
plus any outstanding target tile. -/
def occupiedSet (creatures : List Creature) : List Pt :=
  creatures.flatMap fun c =>
    ((jsRound c.x : ℚ), (jsRound c.y : ℚ)) ::
      (match c.targetX, c.targetY with
       | some tx, some ty => [(tx, ty)]
       | _, _ => [])

/-- `isTileBusy`: static collision, or claimed in the snapshot by a tile
other than the querying agent's own rounded current tile. -/
def isTileBusy (chk : ℚ → ℚ → Bool) (occupied : List Pt) (x y cx cy : ℚ) : Bool :=
  chk x y ||
    (decide ((x, y) ∈ occupied) &&
     !decide ((x, y) = (((jsRound cx : ℤ) : ℚ), ((jsRound cy : ℤ) : ℚ))))

/-- The random-destination retry loop (`MAX_PATH_ATTEMPTS = 5`): each
attempt consumes two `Math.random()` draws, skips destinations within
Manhattan distance 5, and queries the pathfinder. -/
def tryFindPath (mapSize : ℕ) (chk : ℚ → ℚ → Bool) (cx cy : ℚ) (rand : ℕ → ℚ) :
    ℕ → ℕ → Option (List Pt) × ℕ
  | 0, ridx => (none, ridx)
  | attemptsLeft + 1, ridx =>
    let destX : ℤ := ⌊rand ridx * mapSize⌋
    let destY : ℤ := ⌊rand (ridx + 1) * mapSize⌋
    if jsAbs ((destX : ℚ) - cx) + jsAbs ((destY : ℚ) - cy) < 5 then
      tryFindPath mapSize chk cx cy rand attemptsLeft (ridx + 2)
    else
      match Pathfinding.findPath mapSize mapSize chk (cx, cy) ((destX : ℚ), (destY : ℚ)) 1000 with
      | some p => (some p, ridx + 2)
      | none => tryFindPath mapSize chk cx cy rand attemptsLeft (ridx + 2)

/-- The per-agent tick transform of `updateCreatures`, with the ambient
`Math.random()` oracle `rand` consumed from index `ridx`.  The
fire-and-forget `AvatarService.updatePosition` calls are external I/O and
carry no agent state. -/
def updateCreature (dt : ℚ) (mapSize : ℕ) (chk : ℚ → ℚ → Bool) (occupied : List Pt)
    (rand : ℕ → ℚ) (ridx : ℕ) (c0 : Creature) : Creature × ℕ :=
  let st := c0.state.getD .IDLE
  let it := c0.idleTimer.getD 0
  let pth := c0.path.getD []
  let c := { c0 with state := some st, idleTimer := some it, path := some pth }
  match c0.targetX, c0.targetY with
  | some tx, some ty =>
    let sm := match c0.speedMultiplier with
      | some v => if v = 0 then 1 else v
      | none => 1
    let prog := c.moveProgress + dt / 1000 * MOVE_SPEED * sm
    if 1 ≤ prog then
      match pth with
      | next :: rest =>
        if isTileBusy chk occupied next.1 next.2 tx ty then
          ({ c with
              x := tx
              y := ty
              targetX := none
              targetY := none
              moveProgress := 0
              path := some []
              state := some .IDLE
              idleTimer := some 1000 }, ridx)
        else
          ({ c with
              x := tx
              y := ty
              targetX := some next.1
              targetY := some next.2
              moveProgress := 0
              path := some rest
              state := some .MOVING }, ridx)
      | [] =>
        ({ c with
            x := tx
            y := ty
            targetX := none
            targetY := none
            moveProgress := 0
            state := some .IDLE
            idleTimer := some (rand ridx * (4000 - 1000) + 1000) }, ridx + 1)
    else ({ c with moveProgress := prog }, ridx)
  | _, _ =>
    if st = .IDLE then
      if c0.isPlayer = some true then (c, ridx)
      else
        let it' := it - dt
        if it' ≤ 0 then
          let r := tryFindPath mapSize chk c.x c.y rand 5 ridx
          match r.1 with
          | some (first :: rest) =>
            if isTileBusy chk occupied first.1 first.2 c.x c.y then
              ({ c with idleTimer := some 1000 }, r.2)
            else
              ({ c with
                  idleTimer := some it'
                  path := some rest
                  targetX := some first.1
                  targetY := some first.2
                  state := some .MOVING
                  moveProgress := 0 }, r.2)
          | some [] => ({ c with idleTimer := some 1000 }, r.2)
          | none => ({ c with idleTimer := some 1000 }, r.2)
        else ({ c with idleTimer := some it' }, ridx)
    else (c, ridx)

def updateCreaturesAux (dt : ℚ) (mapSize : ℕ) (chk : ℚ → ℚ → Bool)
    (occupied : List Pt) (rand : ℕ → ℚ) : ℕ → List Creature → List Creature
  | _, [] => []
  | ridx, c :: rest =>
    let r := updateCreature dt mapSize chk occupied rand ridx c
    r.1 :: updateCreaturesAux dt mapSize chk occupied rand r.2 rest

/-- One tick of the Movement System over the whole agent list: the
occupancy snapshot is built once from the input list, then every agent is
transformed in order. -/
def updateCreatures (creatures : List Creature) (dt : ℚ) (mapSize : ℕ)
    (chk : ℚ → ℚ → Bool) (rand : ℕ → ℚ) : List Creature :=
  updateCreaturesAux dt mapSize chk (occupiedSet creatures) rand 0 creatures

end Movement

/-! ### Canonical A* loop states on the open grid (bookkeeping for the
shortest-path analysis of `findPath` from `(0,0)` to `(n,0)`) -/

namespace Pathfinding

/-- The node-map entry the loop creates for the axis key `(i, 0)`. -/
def axisE (n i : ℕ) : Pt × SNode :=
  (((i : ℚ), (0 : ℚ)),
    ⟨(i : ℚ), heuristic ((i : ℚ), (0 : ℚ)) ((n : ℚ), (0 : ℚ)),
      if i = 0 then none else some (((i - 1 : ℕ) : ℚ), (0 : ℚ))⟩)

/-- The node-map entry the loop creates for the side key `(i, 1)`. -/
def sideE (n i : ℕ) : Pt × SNode :=
  (((i : ℚ), (1 : ℚ)),
    ⟨(i : ℚ) + 1, heuristic ((i : ℚ), (1 : ℚ)) ((n : ℚ), (0 : ℚ)),
      some ((i : ℚ), (0 : ℚ))⟩)

/-- The side entry exists only when the second grid row exists. -/
def sideList (n : ℕ) (H : ℚ) (i : ℕ) : List (Pt × SNode) :=
  if 1 < H then [sideE n i] else []

/-- The node map after `k` expansions of the open-grid search. -/
def nodesK (n : ℕ) (H : ℚ) : ℕ → List (Pt × SNode)
  | 0 => [axisE n 0]
  | k + 1 => nodesK n H k ++ (sideList n H k ++ [axisE n (k + 1)])

/-- The open list after `k` expansions: the explored side keys in
insertion order, then the frontier axis key. -/
def opnK (H : ℚ) (k : ℕ) : List Pt :=
  (if 1 < H then (List.range k).map (fun i : ℕ => ((i : ℚ), (1 : ℚ))) else []) ++
    [((k : ℚ), (0 : ℚ))]

/-- The closed list after `k` expansions (most recent first). -/
def closedK : ℕ → List Pt
  | 0 => []
  | k + 1 => (((k : ℕ) : ℚ), (0 : ℚ)) :: closedK k

/-- One grid move: the coordinates change by exactly one unit in exactly
one axis. -/
def unitStep (a b : Pt) : Prop :=
  (jsAbs (b.1 - a.1) = 1 ∧ b.2 = a.2) ∨ (b.1 = a.1 ∧ jsAbs (b.2 - a.2) = 1)

end Pathfinding

/-! ### Concrete agents for the Movement System tick analysis -/

def entryZero : LoadoutEntry := ⟨⟨"", .COMMON⟩, ⟨"", "", none⟩⟩

def loadoutZero : Loadout :=
  ⟨entryZero, entryZero, entryZero, entryZero, entryZero, entryZero⟩

/-- A mid-move agent one step from `(3,2)` whose next path step is the
free tile `(3,3)`. -/
def agentA : Creature :=
  { id := "A"
    name := []
    x := 3
    y := 1
    color := 0
    targetX := some 3
    targetY := some 2
    moveProgress := 9/10
    path := some [(3, 3)]
    state := some .MOVING
    seed := 0
    loadout := loadoutZero
    temperament := .SHY
    animPhase := 0 }

/-- A mid-move agent one step from `(2,3)` whose next path step is the
same free tile `(3,3)`. -/
def agentB : Creature :=
  { id := "B"
    name := []
    x := 1
    y := 3
    color := 0
    targetX := some 2
    targetY := some 3
    moveProgress := 9/10
    path := some [(3, 3)]
    state := some .MOVING
    seed := 0
    loadout := loadoutZero
    temperament := .SHY
    animPhase := 0 }

/-- The state of `agentA` after one `dt = 1000` tick: arrived at `(3,2)`
and claiming `(3,3)` as its new target. -/
def agentA2 : Creature :=
  { id := "A"
    name := []
    x := 3
    y := 2
    color := 0
    targetX := some 3
    targetY := some 3
    moveProgress := 0
    path := some []
    idleTimer := some 0
    state := some .MOVING
    seed := 0
    loadout := loadoutZero
    temperament := .SHY
    animPhase := 0 }

/-- The state of `agentB` after the same tick: arrived at `(2,3)` and
claiming the same tile `(3,3)` as its new target. -/
def agentB2 : Creature :=
  { id := "B"
    name := []
    x := 2
    y := 3
    color := 0
    targetX := some 3
    targetY := some 3
    moveProgress := 0
    path := some []
    idleTimer := some 0
    state := some .MOVING
    seed := 0
    loadout := loadoutZero
    temperament := .SHY
    animPhase := 0 }

/-! ## Theorems -/

/-! ### Bounds of the noise field (C9) -/

theorem fade_nonneg {t : ℚ} (h0 : 0 ≤ t) : 0 ≤ Noise.fade t := by
  have key : Noise.fade t = 6 * (t*t*t) * (t - 5/4)^2 + 5/8 * (t*t*t) := by
    unfold Noise.fade; ring
  have h3 : 0 ≤ t*t*t := by positivity
  nlinarith [mul_nonneg h3 (sq_nonneg (t - 5/4))]

theorem fade_le_one {t : ℚ} (h0 : 0 ≤ t) (h1 : t ≤ 1) : Noise.fade t ≤ 1 := by
  have key : 1 - Noise.fade t = (1 - t)^3 * (6*t^2 + 3*t + 1) := by
    unfold Noise.fade; ring
  have ht : 0 ≤ 1 - t := by linarith
  have h2 : 0 ≤ (1 - t)^3 * (6*t^2 + 3*t + 1) := by
    apply mul_nonneg (by positivity)
    nlinarith [sq_nonneg t]
  linarith

/-- The fade-weighted blend of `t` and `1 - t` never exceeds `1/2`:
`fade` crosses `1/2` exactly where `t` does. -/
theorem lerp_fade_le_half {t : ℚ} (h0 : 0 ≤ t) (h1 : t ≤ 1) :
    Noise.lerp (Noise.fade t) t (1 - t) ≤ 1/2 := by
  have key : 2 * Noise.fade t - 1 =
      (2*t - 1) * (6*t^4 - 12*t^3 + 4*t^2 + 2*t + 1) := by
    unfold Noise.fade; ring
  have hQ : 0 ≤ 6*t^4 - 12*t^3 + 4*t^2 + 2*t + 1 := by
    nlinarith [sq_nonneg (t*(1-t)), mul_nonneg h0 (by linarith : (0:ℚ) ≤ 1 - t)]
  have hp : 0 ≤ (2*t - 1) * (2 * Noise.fade t - 1) := by
    rw [key]
    nlinarith [mul_nonneg (sq_nonneg (2*t - 1)) hQ]
  unfold Noise.lerp
  nlinarith [hp]

theorem lerp_le_lerp {t a b A B : ℚ} (ht0 : 0 ≤ t) (ht1 : t ≤ 1)
    (ha : a ≤ A) (hb : b ≤ B) : Noise.lerp t a b ≤ Noise.lerp t A B := by
  unfold Noise.lerp
  nlinarith [mul_nonneg ht0 (by linarith : (0:ℚ) ≤ B - b),
    mul_nonneg (by linarith : (0:ℚ) ≤ 1 - t) (by linarith : (0:ℚ) ≤ A - a)]

set_option maxHeartbeats 1000000 in
/-- The 2D gradient (with `z = 0`) is bounded by `|a| + |b|`: the two
blended components are drawn from `{±a, ±b, 0}` and never both from the
same coordinate. -/
theorem grad_bound (hash : ℕ) (a b : ℚ) :
    -(|a| + |b|) ≤ Noise.grad hash a b 0 ∧ Noise.grad hash a b 0 ≤ |a| + |b| := by
  have ha1 := le_abs_self a
  have ha2 := neg_abs_le a
  have hb1 := le_abs_self b
  have hb2 := neg_abs_le b
  have ha0 := abs_nonneg a
  have hb0 := abs_nonneg b
  simp only [Noise.grad]
  constructor <;> (split_ifs <;> first | (exfalso; omega) | linarith)

/-- Core bound of the bilinear gradient blend: for fractional offsets in
`[0,1)` and arbitrary corner hashes, the raw noise value lies in
`[-1, 1]`. -/
theorem noiseBlend_bound (hA hB hC hD : ℕ) (xf yf : ℚ)
    (hx0 : 0 ≤ xf) (hx1 : xf < 1) (hy0 : 0 ≤ yf) (hy1 : yf < 1) :
    -1 ≤ Noise.lerp (Noise.fade yf)
        (Noise.lerp (Noise.fade xf) (Noise.grad hA xf yf 0) (Noise.grad hB (xf - 1) yf 0))
        (Noise.lerp (Noise.fade xf) (Noise.grad hC xf (yf - 1) 0) (Noise.grad hD (xf - 1) (yf - 1) 0)) ∧
      Noise.lerp (Noise.fade yf)
        (Noise.lerp (Noise.fade xf) (Noise.grad hA xf yf 0) (Noise.grad hB (xf - 1) yf 0))
        (Noise.lerp (Noise.fade xf) (Noise.grad hC xf (yf - 1) 0) (Noise.grad hD (xf - 1) (yf - 1) 0)) ≤ 1 := by
  have hu0 : 0 ≤ Noise.fade xf := fade_nonneg hx0
  have hu1 : Noise.fade xf ≤ 1 := fade_le_one hx0 (le_of_lt hx1)
  have hv0 : 0 ≤ Noise.fade yf := fade_nonneg hy0
  have hv1 : Noise.fade yf ≤ 1 := fade_le_one hy0 (le_of_lt hy1)
  have haxf : |xf| = xf := abs_of_nonneg hx0
  have haxf1 : |xf - 1| = 1 - xf := by rw [abs_of_nonpos (by linarith)]; ring
  have hayf : |yf| = yf := abs_of_nonneg hy0
  have hayf1 : |yf - 1| = 1 - yf := by rw [abs_of_nonpos (by linarith)]; ring
  have gA := grad_bound hA xf yf
  have gB := grad_bound hB (xf - 1) yf
  have gC := grad_bound hC xf (yf - 1)
  have gD := grad_bound hD (xf - 1) (yf - 1)
  rw [haxf, hayf] at gA
  rw [haxf1, hayf] at gB
  rw [haxf, hayf1] at gC
  rw [haxf1, hayf1] at gD
  have hG : Noise.lerp (Noise.fade xf) xf (1 - xf) ≤ 1/2 :=
    lerp_fade_le_half hx0 (le_of_lt hx1)
  have hH : Noise.lerp (Noise.fade yf) yf (1 - yf) ≤ 1/2 :=
    lerp_fade_le_half hy0 (le_of_lt hy1)
  have hL1 : Noise.lerp (Noise.fade xf) (Noise.grad hA xf yf 0) (Noise.grad hB (xf - 1) yf 0) ≤
      yf + Noise.lerp (Noise.fade xf) xf (1 - xf) := by
    have h1 := lerp_le_lerp hu0 hu1 gA.2 gB.2
    have h2 : Noise.lerp (Noise.fade xf) (xf + yf) ((1 - xf) + yf) =
        yf + Noise.lerp (Noise.fade xf) xf (1 - xf) := by unfold Noise.lerp; ring
    linarith
  have hL2 : Noise.lerp (Noise.fade xf) (Noise.grad hC xf (yf - 1) 0) (Noise.grad hD (xf - 1) (yf - 1) 0) ≤
      (1 - yf) + Noise.lerp (Noise.fade xf) xf (1 - xf) := by
    have h1 := lerp_le_lerp hu0 hu1 gC.2 gD.2
    have h2 : Noise.lerp (Noise.fade xf) (xf + (1 - yf)) ((1 - xf) + (1 - yf)) =
        (1 - yf) + Noise.lerp (Noise.fade xf) xf (1 - xf) := by unfold Noise.lerp; ring
    have h3 : |xf| + |yf - 1| = xf + (1 - yf) := by rw [haxf, hayf1]
    have h4 : |xf - 1| + |yf - 1| = (1 - xf) + (1 - yf) := by rw [haxf1, hayf1]
    linarith
  have hL1' : -(yf + Noise.lerp (Noise.fade xf) xf (1 - xf)) ≤
      Noise.lerp (Noise.fade xf) (Noise.grad hA xf yf 0) (Noise.grad hB (xf - 1) yf 0) := by
    have h1 := lerp_le_lerp hu0 hu1 gA.1 gB.1
    have h2 : Noise.lerp (Noise.fade xf) (-(xf + yf)) (-((1 - xf) + yf)) =
        -(yf + Noise.lerp (Noise.fade xf) xf (1 - xf)) := by unfold Noise.lerp; ring
    linarith
  have hL2' : -((1 - yf) + Noise.lerp (Noise.fade xf) xf (1 - xf)) ≤
      Noise.lerp (Noise.fade xf) (Noise.grad hC xf (yf - 1) 0) (Noise.grad hD (xf - 1) (yf - 1) 0) := by
    have h1 := lerp_le_lerp hu0 hu1 gC.1 gD.1
    have h2 : Noise.lerp (Noise.fade xf) (-(xf + (1 - yf))) (-((1 - xf) + (1 - yf))) =
        -((1 - yf) + Noise.lerp (Noise.fade xf) xf (1 - xf)) := by unfold Noise.lerp; ring
    linarith
  constructor
  · have hup := lerp_le_lerp hv0 hv1 hL1' hL2'
    have he : Noise.lerp (Noise.fade yf) (-(yf + Noise.lerp (Noise.fade xf) xf (1 - xf)))
        (-((1 - yf) + Noise.lerp (Noise.fade xf) xf (1 - xf))) =
        -(Noise.lerp (Noise.fade xf) xf (1 - xf) + Noise.lerp (Noise.fade yf) yf (1 - yf)) := by
      unfold Noise.lerp; ring
    linarith
  · have hup := lerp_le_lerp hv0 hv1 hL1 hL2
    have he : Noise.lerp (Noise.fade yf) (yf + Noise.lerp (Noise.fade xf) xf (1 - xf))
        ((1 - yf) + Noise.lerp (Noise.fade xf) xf (1 - xf)) =
        Noise.lerp (Noise.fade xf) xf (1 - xf) + Noise.lerp (Noise.fade yf) yf (1 - yf) := by
      unfold Noise.lerp; ring
    linarith

/-- C9 — For every constructed `Noise` instance and every input pair,
`noise2D(x, y)` lies in the closed interval `[0, 1]`: the raw gradient
blend stays in `[-1, 1]` and the `(res + 1)/2` normalization maps it into
`[0, 1]`. -/
theorem noise2D_in_unit_interval (seed : ℕ) (x y : ℚ) :
    0 ≤ Noise.noise2D (Noise.noisePerm seed) x y ∧
      Noise.noise2D (Noise.noisePerm seed) x y ≤ 1 := by
  have hx0 : 0 ≤ x - ⌊x⌋ := by
    have := Int.floor_le x; linarith
  have hx1 : x - ⌊x⌋ < 1 := by
    have := Int.lt_floor_add_one x; linarith
  have hy0 : 0 ≤ y - ⌊y⌋ := by
    have := Int.floor_le y; linarith
  have hy1 : y - ⌊y⌋ < 1 := by
    have := Int.lt_floor_add_one y; linarith
  simp only [Noise.noise2D]
  have h := noiseBlend_bound
    ((Noise.noisePerm seed) ((Noise.noisePerm seed) ((Noise.noisePerm seed) ((⌊x⌋ : ℤ).emod 256).toNat + ((⌊y⌋ : ℤ).emod 256).toNat)))
    ((Noise.noisePerm seed) ((Noise.noisePerm seed) ((Noise.noisePerm seed) (((⌊x⌋ : ℤ).emod 256).toNat + 1) + ((⌊y⌋ : ℤ).emod 256).toNat)))
    ((Noise.noisePerm seed) ((Noise.noisePerm seed) (((Noise.noisePerm seed) ((⌊x⌋ : ℤ).emod 256).toNat + ((⌊y⌋ : ℤ).emod 256).toNat) + 1)))
    ((Noise.noisePerm seed) ((Noise.noisePerm seed) (((Noise.noisePerm seed) (((⌊x⌋ : ℤ).emod 256).toNat + 1) + ((⌊y⌋ : ℤ).emod 256).toNat) + 1)))
    (x - ⌊x⌋) (y - ⌊y⌋) hx0 hx1 hy0 hy1
  constructor <;> linarith [h.1, h.2]

/-! ### Bounds sentinel (C8) and generation determinism (C3) -/

/-- C8 — For every terrain of width ≥ 1 and height ≥ 1 and every `(x, y)`
outside `[0, width) × [0, height)`, `getTile(x, y)` returns the
water/blocking sentinel `WATER`. -/
theorem getTile_out_of_bounds_water (w h : ℕ) (seedStr : List ℕ) (jsSin : ℚ → ℚ)
    (mathRandom : ℕ → ℚ) (x y : ℤ) (hw : 1 ≤ w) (hh : 1 ≤ h)
    (hout : x < 0 ∨ (w : ℤ) ≤ x ∨ y < 0 ∨ (h : ℤ) ≤ y) :
    getTile (mkTerrain w h seedStr jsSin mathRandom) x y = .WATER := by
  have hwid : (mkTerrain w h seedStr jsSin mathRandom).width = w := rfl
  have hhei : (mkTerrain w h seedStr jsSin mathRandom).height = h := rfl
  unfold getTile
  rw [hwid, hhei, if_pos hout]

theorem getTile_out_of_bounds_water_witness :
    getTile (mkTerrain 1 1 [] (fun _ => 0) (fun _ => 0)) (-1) 0 = .WATER :=
  getTile_out_of_bounds_water 1 1 [] (fun _ => 0) (fun _ => 0) (-1) 0
    (by norm_num) (by norm_num) (Or.inl (by norm_num))

/-- C3 — Generation is deterministic: the terrain (tile array and prop
map) and the structure list are pure functions of `(width, height, seed)`
and the host's fixed `Math.sin`; two runs differing arbitrarily in the
ambient `Math.random` stream produce identical results, because
generation consumes none of that stream. -/
theorem generation_deterministic (w h : ℕ) (seedStr : List ℕ) (jsSin : ℚ → ℚ)
    (run1 run2 : ℕ → ℚ) :
    mkTerrain w h seedStr jsSin run1 = mkTerrain w h seedStr jsSin run2 ∧
      structuresSimple w h seedStr jsSin run1 = structuresSimple w h seedStr jsSin run2 :=
  ⟨rfl, rfl⟩

/-! ### Hydration vs. creation (C10) -/

/-- C10 is refuted as stated: `createCreature` seeds the deterministic
attributes with `stringToHash(name) + variant`, while `hydrateCreature`
re-derives them from `stringToHash(name)` alone, so for `variant = 1` the
stored record hydrates to a different attribute seed. -/
theorem hydrate_drops_variant_counterexample :
    (hydrateCreature (mkRecord (createCreature [97] 0 0 1 "u"))).seed ≠
      (createCreature [97] 0 0 1 "u").seed := by decide

/-- C10 amended — Hydration re-derives exactly the variant-0 attributes:
for every name, position and uuid, the behavioral/visual attributes
(color, seed, loadout, temperament, animPhase) of `hydrateCreature`
applied to the stored record of `createCreature(name, x, y, 0)` equal
those produced by `createCreature` for that name with variant 0. -/
theorem hydrate_matches_create_variant_zero (name : List ℕ) (x y : ℚ) (uuid : String) :
    (hydrateCreature (mkRecord (createCreature name x y 0 uuid))).color =
        (createCreature name x y 0 uuid).color ∧
      (hydrateCreature (mkRecord (createCreature name x y 0 uuid))).seed =
        (createCreature name x y 0 uuid).seed ∧
      (hydrateCreature (mkRecord (createCreature name x y 0 uuid))).loadout =
        (createCreature name x y 0 uuid).loadout ∧
      (hydrateCreature (mkRecord (createCreature name x y 0 uuid))).temperament =
        (createCreature name x y 0 uuid).temperament ∧
      (hydrateCreature (mkRecord (createCreature name x y 0 uuid))).animPhase =
        (createCreature name x y 0 uuid).animPhase := by
  simp only [createCreature, hydrateCreature, mkRecord, Nat.add_zero]
  exact ⟨trivial, trivial, trivial, trivial, trivial⟩

/-! ### Structure footprint overlap (C5) -/

/-- A candidate rejected by the AABB inequalities shares no point with
the tested structure. -/
theorem disjoint_of_not_overlap (a b : Structure)
    (hnot : ¬(b.x < a.x + a.width ∧ a.x < b.x + b.width ∧
      b.y < a.y + a.height ∧ a.y < b.y + b.height)) : footDisjoint a b := by
  rintro px py ⟨⟨ha1, ha2, ha3, ha4⟩, hb1, hb2, hb3, hb4⟩
  apply hnot
  refine ⟨?_, ?_, ?_, ?_⟩
  · exact_mod_cast show (b.x : ℚ) < (a.x : ℚ) + (a.width : ℚ) from lt_of_le_of_lt hb1 ha2
  · exact_mod_cast show (a.x : ℚ) < (b.x : ℚ) + (b.width : ℚ) from lt_of_le_of_lt ha1 hb2
  · exact_mod_cast show (b.y : ℚ) < (a.y : ℚ) + (a.height : ℚ) from lt_of_le_of_lt hb3 ha4
  · exact_mod_cast show (a.y : ℚ) < (b.y : ℚ) + (b.height : ℚ) from lt_of_le_of_lt ha3 hb4

/-- A `checkOverlap = false` verdict makes the candidate's footprint
disjoint from every already-placed structure. -/
theorem checkOverlap_false_disjoint {structs : List Structure} {x y wid hei : ℤ}
    (hc : checkOverlap structs x y wid hei = false) (b : Structure)
    (hbx : b.x = x) (hby : b.y = y) (hbw : b.width = wid) (hbh : b.height = hei) :
    ∀ a ∈ structs, footDisjoint a b := by
  subst hbx hby hbw hbh
  intro a ha
  simp only [checkOverlap, List.any_eq_false, decide_eq_true_eq] at hc
  exact disjoint_of_not_overlap a b (hc a ha)

theorem pairwise_append_single {R : Structure → Structure → Prop}
    {l : List Structure} {b : Structure}
    (hl : l.Pairwise R) (hb : ∀ a ∈ l, R a b) : (l ++ [b]).Pairwise R := by
  rw [List.pairwise_append]
  refine ⟨hl, List.pairwise_singleton _ _, ?_⟩
  intro a ha b' hb'
  rw [List.mem_singleton] at hb'
  subst hb'
  exact hb a ha

theorem foldl_pairwise {α : Type} {R : Structure → Structure → Prop}
    (step : List Structure → α → List Structure)
    (hstep : ∀ acc a, acc.Pairwise R → (step acc a).Pairwise R) :
    ∀ (l : List α) (acc : List Structure), acc.Pairwise R →
      (l.foldl step acc).Pairwise R := by
  intro l
  induction l with
  | nil => intro acc hacc; simpa using hacc
  | cons a t ih => intro acc hacc; exact ih _ (hstep _ _ hacc)

/-- Every push of the simple-variant house loop is guarded by
`checkOverlap`, so pairwise disjointness (or any weaker relation) is
preserved. -/
theorem placeHouses_pairwise {R : Structure → Structure → Prop}
    (hR : ∀ a b, footDisjoint a b → R a b)
    (w h : ℕ) (perm : ℕ → ℕ) (hc : ℕ) :
    ∀ fuel placed st acc, acc.Pairwise R →
      (placeHouses w h perm hc fuel placed st acc).Pairwise R := by
  intro fuel
  induction fuel with
  | zero => intro placed st acc hacc; simpa [placeHouses] using hacc
  | succ n ih =>
    intro placed st acc hacc
    simp only [placeHouses]
    split_ifs <;>
      first
      | exact hacc
      | exact ih _ _ _ hacc
      | exact ih _ _ _ (pairwise_append_single hacc fun a ha =>
          hR _ _ (checkOverlap_false_disjoint (Bool.eq_false_iff.mpr (by assumption)) _
            rfl rfl rfl rfl a ha))

/-- Every push of the simple-variant lamp pass is guarded by
`checkOverlap`. -/
theorem placeLampsSimple_pairwise {R : Structure → Structure → Prop}
    (hR : ∀ a b, footDisjoint a b → R a b)
    (w h seed : ℕ) (perm : ℕ → ℕ) (jsSin : ℚ → ℚ)
    (acc : List Structure) (hacc : acc.Pairwise R) :
    (placeLampsSimple w h seed perm jsSin acc).Pairwise R := by
  unfold placeLampsSimple
  apply foldl_pairwise _ _ _ _ hacc
  intro accX x haccX
  apply foldl_pairwise _ _ _ _ haccX
  intro acc2 y hacc2
  dsimp only
  split_ifs <;>
    first
    | exact hacc2
    | exact pairwise_append_single hacc2 fun a ha =>
        hR _ _ (checkOverlap_false_disjoint (Bool.eq_false_iff.mpr (by assumption)) _
          rfl rfl rfl rfl a ha)

/-- Every push of the road-variant house loop is guarded by
`checkOverlap`. -/
theorem placeHousesRich_pairwise {R : Structure → Structure → Prop}
    (hR : ∀ a b, footDisjoint a b → R a b)
    (w h : ℕ) (perm : ℕ → ℕ) (hc : ℕ) :
    ∀ fuel placed st acc, acc.Pairwise R →
      (placeHousesRich w h perm hc fuel placed st acc).Pairwise R := by
  intro fuel
  induction fuel with
  | zero => intro placed st acc hacc; simpa [placeHousesRich] using hacc
  | succ n ih =>
    intro placed st acc hacc
    simp only [placeHousesRich]
    split_ifs <;>
      first
      | exact hacc
      | exact ih _ _ _ hacc
      | exact ih _ _ _ (pairwise_append_single hacc fun a ha =>
          hR _ _ (checkOverlap_false_disjoint (Bool.eq_false_iff.mpr (by assumption)) _
            rfl rfl rfl rfl a ha))

/-- Every accepted lamp of the road-variant scored pass is guarded by
`checkOverlap`. -/
theorem placeLampsRich_pairwise {R : Structure → Structure → Prop}
    (hR : ∀ a b, footDisjoint a b → R a b) (maxLamps : ℕ) :
    ∀ spots acc placedL cnt, List.Pairwise R acc →
      (placeLampsRich maxLamps spots acc placedL cnt).Pairwise R := by
  intro spots
  induction spots with
  | nil => intro acc placedL cnt hacc; simpa [placeLampsRich] using hacc
  | cons spot rest ih =>
    intro acc placedL cnt hacc
    simp only [placeLampsRich]
    split_ifs <;>
      first
      | exact hacc
      | exact ih _ _ _ hacc
      | exact ih _ _ _ (pairwise_append_single hacc fun a ha =>
          hR _ _ (checkOverlap_false_disjoint (Bool.eq_false_iff.mpr (by assumption)) _
            rfl rfl rfl rfl a ha))

theorem pairwise_of_all_mem_base {w h : ℕ} (l : List Structure)
    (hl : ∀ a ∈ l, a ∈ richBase w h) :
    l.Pairwise (fun a b => footDisjoint a b ∨ (a ∈ richBase w h ∧ b ∈ richBase w h)) := by
  induction l with
  | nil => exact List.Pairwise.nil
  | cons a t ih =>
    refine List.Pairwise.cons ?_ (ih fun x hx => hl x (List.mem_cons_of_mem a hx))
    intro b hb
    exact Or.inr ⟨hl a (List.mem_cons_self a t), hl b (List.mem_cons_of_mem a hb)⟩

/-- C5 amended — Every structure placed by a `checkOverlap`-guarded push
(all houses and lamps of both generator variants) is footprint-disjoint
from every earlier structure; in the simple variant this makes the whole
structure list pairwise disjoint for every width, height and seed.  In
the road-and-plaza variant the hardcoded fountain, plaza items and
soccer field are pushed without any overlap check, so only pairs not both
drawn from that hardcoded base are guaranteed disjoint. -/
theorem structures_no_overlap (w h : ℕ) (seedStr : List ℕ) (jsSin : ℚ → ℚ)
    (mathRandom : ℕ → ℚ) (tiles : List ℕ) :
    (structuresSimple w h seedStr jsSin mathRandom).Pairwise footDisjoint ∧
      ((structuresRich w h seedStr tiles).2).Pairwise
        (fun a b => footDisjoint a b ∨ (a ∈ richBase w h ∧ b ∈ richBase w h)) := by
  constructor
  · unfold structuresSimple
    exact placeLampsSimple_pairwise (fun _ _ hd => hd) _ _ _ _ _ _
      (placeHouses_pairwise (fun _ _ hd => hd) _ _ _ _ _ _ _ _ List.Pairwise.nil)
  · unfold structuresRich
    exact placeLampsRich_pairwise (fun _ _ hd => Or.inl hd) _ _ _ _ _
      (placeHousesRich_pairwise (fun _ _ hd => Or.inl hd) _ _ _ _ _ _ _ _
        (pairwise_of_all_mem_base _ fun a ha => ha))

theorem placeHousesRich_prefix (w h : ℕ) (perm : ℕ → ℕ) (hc : ℕ) :
    ∀ fuel placed st acc, ∃ t,
      placeHousesRich w h perm hc fuel placed st acc = acc ++ t := by
  intro fuel
  induction fuel with
  | zero => intro placed st acc; exact ⟨[], by simp [placeHousesRich]⟩
  | succ n ih =>
    intro placed st acc
    simp only [placeHousesRich]
    split_ifs <;>
      first
      | exact ih _ _ _
      | exact ⟨[], (List.append_nil _).symm⟩
      | (obtain ⟨t, ht⟩ := ih _ _ _
         exact ⟨_, by rw [ht, List.append_assoc]⟩)

theorem placeLampsRich_prefix (maxLamps : ℕ) :
    ∀ spots acc placedL cnt, ∃ t,
      placeLampsRich maxLamps spots acc placedL cnt = acc ++ t := by
  intro spots
  induction spots with
  | nil => intro acc placedL cnt; exact ⟨[], by simp [placeLampsRich]⟩
  | cons spot rest ih =>
    intro acc placedL cnt
    simp only [placeLampsRich]
    split_ifs <;>
      first
      | exact ih _ _ _
      | exact ⟨[], (List.append_nil _).symm⟩
      | (obtain ⟨t, ht⟩ := ih _ _ _
         exact ⟨_, by rw [ht, List.append_assoc]⟩)

/-- C5 is refuted as stated on the road-and-plaza generator: in a 20×20
world the forced soccer field `[4,16) × [4,12)` and the central fountain
`[9,11) × [9,11)` are both in the structure list and share the grid point
`(9,9)`. -/
theorem rich_structures_overlap_counterexample :
    ∃ s1 s2 : Structure,
      s1 ∈ (structuresRich 20 20 [] []).2 ∧ s2 ∈ (structuresRich 20 20 [] []).2 ∧
        s1 ≠ s2 ∧ footContains s1 9 9 ∧ footContains s2 9 9 := by
  have hbase : ∃ t, (structuresRich 20 20 [] []).2 = richBase 20 20 ++ t := by
    unfold structuresRich
    obtain ⟨t1, ht1⟩ := placeHousesRich_prefix 20 20
      (Noise.noisePerm (charSum [])) ((20 * 20) / 100) (((20 * 20) / 100) * 10) 0
      (charSum []) (richBase 20 20)
    obtain ⟨t2, ht2⟩ := placeLampsRich_prefix (max 3 ((20 * 20) / 600)) _
      (placeHousesRich 20 20 (Noise.noisePerm (charSum [])) ((20 * 20) / 100)
        (((20 * 20) / 100) * 10) 0 (charSum []) (richBase 20 20)) [] 0
    exact ⟨t1 ++ t2, by dsimp only; rw [ht2, ht1, List.append_assoc]⟩
  obtain ⟨t, ht⟩ := hbase
  refine ⟨⟨"central_fountain", .FOUNTAIN, 9, 9, 2, 2⟩,
    ⟨"soccer_field_main", .SOCCER_FIELD, 4, 4, 12, 8⟩, ?_, ?_, ?_, ?_, ?_⟩
  · rw [ht]; exact List.mem_append_left _ (by decide)
  · rw [ht]; exact List.mem_append_left _ (by decide)
  · decide
  · norm_num [footContains]
  · norm_num [footContains]

/-! ### Pathfinding: validation (C6), termination and soundness (C7),
fractional starts (C4), open-grid optimality (C2) -/

namespace Pathfinding

/-- C6 — `findPath` returns null, without searching, whenever the start
or the goal is out of bounds or the goal tile itself is blocked,
regardless of reachability of nearby tiles. -/
theorem findPath_rejects (W H : ℚ) (blocked : ℚ → ℚ → Bool) (s e : Pt) (maxN : ℕ)
    (h : isValid W H s.1 s.2 = false ∨ isValid W H e.1 e.2 = false ∨
      blocked e.1 e.2 = true) :
    findPath W H blocked s e maxN = none := by
  rcases h with h | h | h <;> simp [findPath, h]

theorem findPath_rejects_witness :
    findPath 5 5 (fun _ _ => false) (9, 9) (0, 0) 7 = none :=
  findPath_rejects 5 5 (fun _ _ => false) (9, 9) (0, 0) 7
    (Or.inl (by norm_num [isValid]))

theorem insertByF_mem (nodes : List (Pt × SNode)) (k : Pt) :
    ∀ (l : List Pt) (x : Pt), x ∈ insertByF nodes k l ↔ x = k ∨ x ∈ l := by
  intro l
  induction l with
  | nil => intro x; simp [insertByF]
  | cons j js ih =>
    intro x
    simp only [insertByF]
    split_ifs
    · rw [List.mem_cons, List.mem_cons, ih]
      tauto
    · rw [List.mem_cons, List.mem_cons]

theorem sortByF_sub_aux (nodes : List (Pt × SNode)) :
    ∀ (l acc : List Pt) (x : Pt),
      x ∈ l.foldl (fun a k => insertByF nodes k a) acc → x ∈ acc ∨ x ∈ l := by
  intro l
  induction l with
  | nil => intro acc x hx; exact Or.inl hx
  | cons a t ih =>
    intro acc x hx
    rcases ih _ x hx with h | h
    · rcases (insertByF_mem nodes a acc x).mp h with h | h
      · exact Or.inr (by simp [h])
      · exact Or.inl h
    · exact Or.inr (List.mem_cons_of_mem a h)

/-- Sorting the open list never introduces keys. -/
theorem sortByF_sub {nodes : List (Pt × SNode)} {l : List Pt} {x : Pt}
    (hx : x ∈ sortByF nodes l) : x ∈ l := by
  rcases sortByF_sub_aux nodes l [] x hx with h | h
  · cases h
  · exact h

/-- Keys produced by one neighbor relaxation come from the previous open
list or are the neighbor itself. -/
theorem relaxNeighbor_fst_sub (endP cur : Pt) (curG : ℚ) (closed : List Pt)
    (st : List Pt × List (Pt × SNode)) (n x : Pt)
    (h : x ∈ (relaxNeighbor endP cur curG closed st n).1) : x ∈ st.1 ∨ x = n := by
  unfold relaxNeighbor at h
  split at h
  · exact Or.inl h
  · split at h
    · rcases List.mem_append.mp h with h1 | h1
      · exact Or.inl h1
      · exact Or.inr (List.mem_singleton.mp h1)
    · split at h
      · exact Or.inl h
      · exact Or.inl h

/-- Keys produced by the neighbor-relaxation fold come from the previous
open list or from the neighbor list. -/
theorem relax_fold_sub (endP cur : Pt) (curG : ℚ) (closed : List Pt) :
    ∀ (neigh : List Pt) (st : List Pt × List (Pt × SNode)) (x : Pt),
      x ∈ (neigh.foldl (relaxNeighbor endP cur curG closed) st).1 →
        x ∈ st.1 ∨ x ∈ neigh := by
  intro neigh
  induction neigh with
  | nil => intro st x hx; exact Or.inl hx
  | cons n t ih =>
    intro st x hx
    rw [List.foldl_cons] at hx
    rcases ih _ x hx with h | h
    · rcases relaxNeighbor_fst_sub _ _ _ _ _ _ _ h with h1 | h1
      · exact Or.inl h1
      · exact Or.inr (by simp [h1])
    · exact Or.inr (List.mem_cons_of_mem n h)

/-- Every neighbor is one unit step from its node, in a direction from
`dirs`. -/
theorem neighborsOf_offset {W H : ℚ} {blocked : ℚ → ℚ → Bool} {p q : Pt}
    (h : q ∈ neighborsOf W H blocked p) :
    ∃ d ∈ dirs, q = (p.1 + d.1, p.2 + d.2) := by
  simp only [neighborsOf, List.mem_filterMap] at h
  obtain ⟨d, hd, hf⟩ := h
  split_ifs at hf
  exact ⟨d, hd, (Option.some_inj.mp hf).symm⟩

/-- The A* loop with fuel `maxNodes + 2` always yields a result: every
continuing iteration increments the explored count, and the count is
capped by `maxNodes`. -/
theorem aloop_isSome (W H : ℚ) (blocked : ℚ → ℚ → Bool) (endP : Pt) (maxN : ℕ) :
    ∀ (fuel : ℕ) (opn closed : List Pt) (nodes : List (Pt × SNode)) (explored : ℕ),
      maxN + 2 ≤ explored + fuel → explored ≤ maxN + 1 →
      (aloop W H blocked endP maxN fuel opn closed nodes explored).isSome := by
  intro fuel
  induction fuel with
  | zero => intro opn closed nodes explored h1 h2; omega
  | succ n ih =>
    intro opn closed nodes explored h1 h2
    simp only [aloop]
    split
    · simp
    · rename_i cur rest heq
      by_cases hc : cur = endP
      · rw [if_pos hc]; simp
      · rw [if_neg hc]
        by_cases hm : maxN < explored + 1
        · rw [if_pos hm]; simp
        · rw [if_neg hm]
          exact ih _ _ _ _ (by omega) (by omega)

/-- If the loop returns a path, the goal key was drawn from the open
list, and every key ever in the open list is graph-reachable from the
start. -/
theorem aloop_sound (W H : ℚ) (blocked : ℚ → ℚ → Bool) (s endP : Pt) (maxN : ℕ) :
    ∀ (fuel : ℕ) (opn closed : List Pt) (nodes : List (Pt × SNode)) (explored : ℕ),
      (∀ k ∈ opn, Reachable W H blocked s k) →
      ∀ p, aloop W H blocked endP maxN fuel opn closed nodes explored = some (some p) →
        Reachable W H blocked s endP := by
  intro fuel
  induction fuel with
  | zero => intro opn closed nodes explored hopn p hp; cases hp
  | succ n ih =>
    intro opn closed nodes explored hopn p hp
    simp only [aloop] at hp
    split at hp
    · cases hp
    · rename_i cur rest heq
      by_cases hc : cur = endP
      · have : cur ∈ sortByF nodes opn := by rw [heq]; exact List.mem_cons_self _ _
        exact hc ▸ hopn cur (sortByF_sub this)
      · rw [if_neg hc] at hp
        by_cases hm : maxN < explored + 1
        · rw [if_pos hm] at hp; cases hp
        · rw [if_neg hm] at hp
          refine ih _ _ _ _ ?_ p hp
          intro k hk
          rcases relax_fold_sub endP cur _ _ _ _ k hk with h | h
          · apply hopn
            apply sortByF_sub
            rw [heq]
            exact List.mem_cons_of_mem _ h
          · have hcur : Reachable W H blocked s cur := by
              apply hopn
              apply sortByF_sub
              rw [heq]
              exact List.mem_cons_self _ _
            exact Reachable.step hcur h

/-- C7 — `findPath` always terminates: the loop needs at most
`maxNodes + 2` iterations (each non-returning iteration increments the
explored count toward the cap, and an empty open set returns null).
Moreover a returned path certifies that the goal is graph-reachable from
the start, so for an unreachable (e.g. fully enclosed) goal the result is
null, reached via the node cap or open-set exhaustion. -/
theorem findPath_terminates (W H : ℚ) (blocked : ℚ → ℚ → Bool) (s e : Pt) (maxN : ℕ) :
    (aloop W H blocked e maxN (maxN + 2) [s] []
        [(s, ⟨0, heuristic s e, none⟩)] 0).isSome ∧
      (∀ p, findPath W H blocked s e maxN = some p → Reachable W H blocked s e) := by
  constructor
  · exact aloop_isSome W H blocked e maxN (maxN + 2) _ _ _ 0 (by omega) (by omega)
  · intro p hp
    unfold findPath at hp
    split_ifs at hp
    rcases haloop : aloop W H blocked e maxN (maxN + 2) [s] []
        [(s, ⟨0, heuristic s e, none⟩)] 0 with _ | op
    · rw [haloop] at hp; cases hp
    · rw [haloop] at hp
      cases op with
      | none => cases hp
      | some q =>
        refine aloop_sound W H blocked s e maxN (maxN + 2) [s] []
          [(s, ⟨0, heuristic s e, none⟩)] 0 ?_ q ?_
        · intro k hk
          rw [List.mem_singleton] at hk
          subst hk
          exact Reachable.base
        · rw [haloop]

theorem findPath_terminates_witness :
    (aloop 2 1 (fun _ _ => false) (0, 0) 5 7 [(0, 0)] []
        [((0, 0), ⟨0, heuristic (0, 0) (0, 0), none⟩)] 0).isSome ∧
      Reachable 2 1 (fun _ _ => false) (0, 0) (0, 0) :=
  ⟨(findPath_terminates 2 1 (fun _ _ => false) (0, 0) (0, 0) 5).1,
    (findPath_terminates 2 1 (fun _ _ => false) (0, 0) (0, 0) 5).2 [] (by decide)⟩

theorem dirs_are_integral : ∀ d ∈ dirs, ∃ i j : ℤ, d.1 = (i : ℚ) ∧ d.2 = (j : ℚ) := by
  intro d hd
  fin_cases hd
  · exact ⟨0, 1, by norm_num, by norm_num⟩
  · exact ⟨0, -1, by norm_num, by norm_num⟩
  · exact ⟨1, 0, by norm_num, by norm_num⟩
  · exact ⟨-1, 0, by norm_num, by norm_num⟩

/-- Every key the search ever opens sits at an integer offset from the
start in both coordinates, so a goal with integer coordinates can never
pass the exact goal-equality test when the start is fractional. -/
theorem aloop_fractional_no_path (W H : ℚ) (blocked : ℚ → ℚ → Bool)
    (sx sy : ℚ) (e : Pt) (maxN : ℕ)
    (hfrac : (¬ ∃ z : ℤ, sx = (z : ℚ)) ∨ (¬ ∃ z : ℤ, sy = (z : ℚ)))
    (hgoal : (∃ a : ℤ, e.1 = (a : ℚ)) ∧ (∃ b : ℤ, e.2 = (b : ℚ))) :
    ∀ (fuel : ℕ) (opn closed : List Pt) (nodes : List (Pt × SNode)) (explored : ℕ),
      (∀ k ∈ opn, (∃ z : ℤ, k.1 = sx + (z : ℚ)) ∧ (∃ z : ℤ, k.2 = sy + (z : ℚ))) →
      ∀ p, aloop W H blocked e maxN fuel opn closed nodes explored ≠ some (some p) := by
  intro fuel
  induction fuel with
  | zero => intro opn closed nodes explored hopn p hp; cases hp
  | succ n ih =>
    intro opn closed nodes explored hopn p hp
    simp only [aloop] at hp
    split at hp
    · cases hp
    · rename_i cur rest heq
      by_cases hc : cur = e
      · have hcur : cur ∈ sortByF nodes opn := by
          rw [heq]; exact List.mem_cons_self _ _
        obtain ⟨⟨z1, hz1⟩, z2, hz2⟩ := hopn cur (sortByF_sub hcur)
        obtain ⟨⟨a, ha⟩, b, hb⟩ := hgoal
        rcases hfrac with hf | hf
        · refine hf ⟨a - z1, ?_⟩
          have : sx + (z1 : ℚ) = (a : ℚ) := by rw [← hz1, hc, ha]
          push_cast
          linarith
        · refine hf ⟨b - z2, ?_⟩
          have : sy + (z2 : ℚ) = (b : ℚ) := by rw [← hz2, hc, hb]
          push_cast
          linarith
      · rw [if_neg hc] at hp
        by_cases hm : maxN < explored + 1
        · rw [if_pos hm] at hp; cases hp
        · rw [if_neg hm] at hp
          refine ih _ _ _ _ ?_ p hp
          intro k hk
          rcases relax_fold_sub e cur _ _ _ _ k hk with h | h
          · exact hopn k (sortByF_sub (by rw [heq]; exact List.mem_cons_of_mem _ h))
          · obtain ⟨d, hd, hkd⟩ := neighborsOf_offset h
            obtain ⟨i, j, hi, hj⟩ := dirs_are_integral d hd
            have hcur : cur ∈ sortByF nodes opn := by
              rw [heq]; exact List.mem_cons_self _ _
            obtain ⟨⟨z1, hz1⟩, z2, hz2⟩ := hopn cur (sortByF_sub hcur)
            subst hkd
            constructor
            · exact ⟨z1 + i, by rw [hz1, hi]; push_cast; ring⟩
            · exact ⟨z2 + j, by rw [hz2, hj]; push_cast; ring⟩

/-- C4 — For every start whose x or y coordinate is not an integer (as
produced by the spawn resolver's sub-tile random offset) and every goal
with integer coordinates, `findPath` never returns a path: unit neighbor
steps preserve the fractional offset, so the goal-equality test never
fires and the search ends in null via open-set exhaustion or the node
cap. -/
theorem findPath_fractional_start_null (W H : ℚ) (blocked : ℚ → ℚ → Bool)
    (sx sy : ℚ) (e : Pt) (maxN : ℕ)
    (hfrac : (¬ ∃ z : ℤ, sx = (z : ℚ)) ∨ (¬ ∃ z : ℤ, sy = (z : ℚ)))
    (hgoal : (∃ a : ℤ, e.1 = (a : ℚ)) ∧ (∃ b : ℤ, e.2 = (b : ℚ))) :
    findPath W H blocked (sx, sy) e maxN = none := by
  unfold findPath
  split_ifs with h1 h2
  · rfl
  · rfl
  · rcases haloop : aloop W H blocked e maxN (maxN + 2) [(sx, sy)] []
        [((sx, sy), ⟨0, heuristic (sx, sy) e, none⟩)] 0 with _ | op
    · rfl
    · cases op with
      | none => rfl
      | some p =>
        exfalso
        refine aloop_fractional_no_path W H blocked sx sy e maxN hfrac hgoal
          (maxN + 2) [(sx, sy)] [] [((sx, sy), ⟨0, heuristic (sx, sy) e, none⟩)] 0
          ?_ p haloop
        intro k hk
        rw [List.mem_singleton] at hk
        subst hk
        exact ⟨⟨0, by push_cast; ring⟩, ⟨0, by push_cast; ring⟩⟩

theorem findPath_fractional_start_null_witness :
    (¬ ∃ z : ℤ, (1/2 : ℚ) = (z : ℚ)) ∧
      findPath 3 3 (fun _ _ => false) (1/2, 0) (2, 0) 10 = none := by
  have hfrac : ¬ ∃ z : ℤ, (1/2 : ℚ) = (z : ℚ) := by
    rintro ⟨z, hz⟩
    have h2 : (1 : ℚ) = 2 * (z : ℚ) := by
      field_simp at hz
      linarith
    have h3 : (1 : ℤ) = 2 * z := by exact_mod_cast h2
    omega
  exact ⟨hfrac, findPath_fractional_start_null 3 3 (fun _ _ => false) (1/2) 0 (2, 0) 10
    (Or.inl hfrac) ⟨⟨2, by norm_num⟩, ⟨0, by norm_num⟩⟩⟩

theorem heuristic_axis {n i : ℕ} (h : i ≤ n) :
    heuristic ((i : ℚ), (0 : ℚ)) ((n : ℚ), (0 : ℚ)) = (n : ℚ) - i := by
  have hc : (i : ℚ) ≤ (n : ℚ) := by exact_mod_cast h
  unfold heuristic jsAbs
  dsimp only
  split_ifs <;> linarith

theorem heuristic_side {n i : ℕ} (h : i < n) :
    heuristic ((i : ℚ), (1 : ℚ)) ((n : ℚ), (0 : ℚ)) = (n : ℚ) - i + 1 := by
  have hc : (i : ℚ) < (n : ℚ) := by exact_mod_cast h
  unfold heuristic jsAbs
  dsimp only
  split_ifs <;> linarith

theorem assocFind_append_left {l1 l2 : List (Pt × SNode)} {q : Pt} {v : SNode}
    (h : assocFind l1 q = some v) : assocFind (l1 ++ l2) q = some v := by
  induction l1 with
  | nil => simp [assocFind] at h
  | cons kv rest ih =>
    by_cases hkq : kv.1 = q
    · simp only [List.cons_append, assocFind, if_pos hkq] at h ⊢; exact h
    · simp only [List.cons_append, assocFind, if_neg hkq] at h ⊢; exact ih h

theorem assocFind_none_of {l : List (Pt × SNode)} {q : Pt}
    (h : ∀ e ∈ l, e.1 ≠ q) : assocFind l q = none := by
  induction l with
  | nil => rfl
  | cons kv rest ih =>
    simp only [assocFind, if_neg (h kv (List.mem_cons_self kv rest))]
    exact ih (fun e he => h e (List.mem_cons_of_mem kv he))

theorem assocFind_append_right {l1 l2 : List (Pt × SNode)} {q : Pt}
    (h : ∀ e ∈ l1, e.1 ≠ q) : assocFind (l1 ++ l2) q = assocFind l2 q := by
  induction l1 with
  | nil => rfl
  | cons kv rest ih =>
    simp only [List.cons_append, assocFind, if_neg (h kv (List.mem_cons_self kv rest))]
    exact ih (fun e he => h e (List.mem_cons_of_mem kv he))

theorem nodesK_keys {n : ℕ} {H : ℚ} : ∀ {k : ℕ}, ∀ e ∈ nodesK n H k,
    (∃ i, i ≤ k ∧ e.1 = ((i : ℚ), (0 : ℚ))) ∨ (∃ i, i < k ∧ e.1 = ((i : ℚ), (1 : ℚ))) := by
  intro k
  induction k with
  | zero =>
    intro e he
    simp only [nodesK, List.mem_singleton] at he
    subst he
    exact Or.inl ⟨0, le_refl 0, rfl⟩
  | succ k ih =>
    intro e he
    rcases List.mem_append.mp he with he | he
    · rcases ih e he with ⟨i, hik, hkey⟩ | ⟨i, hik, hkey⟩
      · exact Or.inl ⟨i, Nat.le_succ_of_le hik, hkey⟩
      · exact Or.inr ⟨i, Nat.lt_succ_of_lt hik, hkey⟩
    · rcases List.mem_append.mp he with hs | ha
      · unfold sideList at hs
        split_ifs at hs with hH1
        · rw [List.mem_singleton] at hs
          subst hs
          exact Or.inr ⟨k, Nat.lt_succ_self k, rfl⟩
        · exact absurd hs (List.not_mem_nil e)
      · rw [List.mem_singleton] at ha
        subst ha
        exact Or.inl ⟨k + 1, le_refl _, rfl⟩

theorem find_axis {n : ℕ} {H : ℚ} : ∀ {k i : ℕ}, i ≤ k →
    assocFind (nodesK n H k) ((i : ℚ), (0 : ℚ)) = some (axisE n i).2 := by
  intro k
  induction k with
  | zero =>
    intro i hik
    have h0 : i = 0 := Nat.le_zero.mp hik
    subst h0
    simp [nodesK, assocFind, axisE]
  | succ k ih =>
    intro i hik
    rcases Nat.le_add_one_iff.mp hik with h | h
    · simp only [nodesK]
      exact assocFind_append_left (ih h)
    · subst h
      have hfresh : ∀ e ∈ nodesK n H k, e.1 ≠ (((k + 1 : ℕ) : ℚ), (0 : ℚ)) := by
        intro e he heq
        rcases nodesK_keys e he with ⟨j, hj, hkey⟩ | ⟨j, hj, hkey⟩
        · rw [hkey] at heq
          have h1 : j = k + 1 := Nat.cast_inj.mp (congrArg Prod.fst heq)
          omega
        · rw [hkey] at heq
          have h2 := congrArg Prod.snd heq
          norm_num at h2
      have hfresh2 : ∀ e ∈ sideList n H k, e.1 ≠ (((k + 1 : ℕ) : ℚ), (0 : ℚ)) := by
        intro e he heq
        unfold sideList at he
        split_ifs at he
        · rw [List.mem_singleton] at he
          subst he
          have h2 := congrArg Prod.snd heq
          simp [sideE] at h2
        · exact absurd he (List.not_mem_nil e)
      simp only [nodesK]
      rw [assocFind_append_right hfresh, assocFind_append_right hfresh2]
      simp [assocFind, axisE]

theorem find_side {n : ℕ} {H : ℚ} (hH1 : 1 < H) : ∀ {k i : ℕ}, i < k →
    assocFind (nodesK n H k) ((i : ℚ), (1 : ℚ)) = some (sideE n i).2 := by
  intro k
  induction k with
  | zero => intro i hik; exact absurd hik (Nat.not_lt_zero i)
  | succ k ih =>
    intro i hik
    rcases Nat.lt_succ_iff_lt_or_eq.mp hik with h | h
    · simp only [nodesK]
      exact assocFind_append_left (ih h)
    · subst h
      have hfresh : ∀ e ∈ nodesK n H i, e.1 ≠ ((i : ℚ), (1 : ℚ)) := by
        intro e he heq
        rcases nodesK_keys e he with ⟨j, hj, hkey⟩ | ⟨j, hj, hkey⟩
        · rw [hkey] at heq
          have h2 := congrArg Prod.snd heq
          norm_num at h2
        · rw [hkey] at heq
          have h1 : j = i := Nat.cast_inj.mp (congrArg Prod.fst heq)
          omega
      simp only [nodesK]
      rw [assocFind_append_right hfresh]
      simp only [sideList, if_pos hH1]
      simp [assocFind, sideE]

theorem fresh_axis_key {n : ℕ} {H : ℚ} {k : ℕ} :
    ∀ e ∈ nodesK n H k, e.1 ≠ ((k : ℚ) + 1, (0 : ℚ)) := by
  intro e he heq
  rcases nodesK_keys e he with ⟨j, hj, hkey⟩ | ⟨j, hj, hkey⟩
  · rw [hkey] at heq
    have h1 : (j : ℚ) = (k : ℚ) + 1 := congrArg Prod.fst heq
    have h2 : (j : ℚ) ≤ (k : ℚ) := by exact_mod_cast hj
    linarith
  · rw [hkey] at heq
    have h2 := congrArg Prod.snd heq
    norm_num at h2

theorem find_fresh_side {n : ℕ} {H : ℚ} {k : ℕ} :
    assocFind (nodesK n H k) ((k : ℚ), (1 : ℚ)) = none := by
  apply assocFind_none_of
  intro e he heq
  rcases nodesK_keys e he with ⟨j, hj, hkey⟩ | ⟨j, hj, hkey⟩
  · rw [hkey] at heq
    have h2 := congrArg Prod.snd heq
    norm_num at h2
  · rw [hkey] at heq
    have h1 : j = k := Nat.cast_inj.mp (congrArg Prod.fst heq)
    omega

theorem closedK_mem : ∀ {k : ℕ}, ∀ q ∈ closedK k, ∃ i, i < k ∧ q = ((i : ℚ), (0 : ℚ)) := by
  intro k
  induction k with
  | zero => intro q hq; exact absurd hq (List.not_mem_nil q)
  | succ k ih =>
    intro q hq
    rcases List.mem_cons.mp hq with h | h
    · exact ⟨k, Nat.lt_succ_self k, h⟩
    · obtain ⟨i, hik, hq⟩ := ih q h
      exact ⟨i, Nat.lt_succ_of_lt hik, hq⟩

theorem nodeF_axis {n : ℕ} {H : ℚ} {k i : ℕ} (hik : i ≤ k) (hkn : k ≤ n) :
    nodeF (nodesK n H k) ((i : ℚ), (0 : ℚ)) = (n : ℚ) := by
  unfold nodeF
  rw [find_axis hik]
  simp only [axisE]
  rw [heuristic_axis (hik.trans hkn)]
  ring

theorem nodeF_side {n : ℕ} {H : ℚ} (hH1 : 1 < H) {k i : ℕ} (hik : i < k) (hkn : k ≤ n) :
    nodeF (nodesK n H k) ((i : ℚ), (1 : ℚ)) = (n : ℚ) + 2 := by
  unfold nodeF
  rw [find_side hH1 hik]
  simp only [sideE]
  rw [heuristic_side (lt_of_lt_of_le hik hkn)]
  ring

theorem insert_all_le {nodes : List (Pt × SNode)} {q : Pt} :
    ∀ {l : List Pt}, (∀ j ∈ l, nodeF nodes j ≤ nodeF nodes q) →
      insertByF nodes q l = l ++ [q] := by
  intro l
  induction l with
  | nil => intro _; rfl
  | cons j js ih =>
    intro h
    simp only [insertByF, if_pos (h j (List.mem_cons_self j js))]
    rw [ih (fun x hx => h x (List.mem_cons_of_mem j hx))]
    rfl

theorem insert_lt_head {nodes : List (Pt × SNode)} {q : Pt} {l : List Pt}
    (h : ∀ j ∈ l, ¬ nodeF nodes j ≤ nodeF nodes q) :
    insertByF nodes q l = q :: l := by
  cases l with
  | nil => rfl
  | cons j js => simp only [insertByF, if_neg (h j (List.mem_cons_self j js))]

theorem foldl_insert_const {nodes : List (Pt × SNode)} {c : ℚ} :
    ∀ (l acc : List Pt), (∀ j ∈ l, nodeF nodes j = c) → (∀ j ∈ acc, nodeF nodes j = c) →
      List.foldl (fun a q => insertByF nodes q a) acc l = acc ++ l := by
  intro l
  induction l with
  | nil => intro acc _ _; simp
  | cons j js ih =>
    intro acc hl hacc
    rw [List.foldl_cons,
      insert_all_le (fun x hx => by
        rw [hacc x hx, hl j (List.mem_cons_self j js)]),
      ih (acc ++ [j]) (fun x hx => hl x (List.mem_cons_of_mem j hx))
        (fun x hx => by
          rcases List.mem_append.mp hx with h | h
          · exact hacc x h
          · rw [List.mem_singleton] at h
            subst h
            exact hl x (List.mem_cons_self x js))]
    simp

theorem sortK {n : ℕ} {H : ℚ} {k : ℕ} (hkn : k ≤ n) :
    sortByF (nodesK n H k) (opnK H k) =
      ((k : ℚ), (0 : ℚ)) ::
        (if 1 < H then (List.range k).map (fun i : ℕ => ((i : ℚ), (1 : ℚ))) else []) := by
  have hsides : ∀ j ∈ (if 1 < H then (List.range k).map
      (fun i : ℕ => ((i : ℚ), (1 : ℚ))) else []), nodeF (nodesK n H k) j = (n : ℚ) + 2 := by
    intro j hj
    split_ifs at hj with hH1
    · simp only [List.mem_map, List.mem_range] at hj
      obtain ⟨i, hi, rfl⟩ := hj
      exact nodeF_side hH1 hi hkn
    · exact absurd hj (List.not_mem_nil j)
  have hlt : ∀ j ∈ (if 1 < H then (List.range k).map
      (fun i : ℕ => ((i : ℚ), (1 : ℚ))) else []),
      ¬ nodeF (nodesK n H k) j ≤ nodeF (nodesK n H k) ((k : ℚ), (0 : ℚ)) := by
    intro j hj hcon
    rw [hsides j hj, nodeF_axis (le_refl k) hkn] at hcon
    linarith
  unfold sortByF opnK
  rw [List.foldl_append,
    foldl_insert_const _ [] hsides (fun j hj => absurd hj (List.not_mem_nil j))]
  simp only [List.nil_append]
  rw [List.foldl_cons, List.foldl_nil]
  exact insert_lt_head hlt

theorem neighbors_axis {W H : ℚ} {n k : ℕ} (hk : k < n) (hn : (n : ℚ) < W) (hH : 0 < H) :
    neighborsOf W H (fun _ _ => false) ((k : ℚ), (0 : ℚ)) =
      (if 1 < H then [((k : ℚ), (1 : ℚ))] else []) ++
        ([((k : ℚ) + 1, (0 : ℚ))] ++
          (if 0 < k then [((k : ℚ) + -1, (0 : ℚ))] else [])) := by
  have hkn : (k : ℚ) < (n : ℚ) := by exact_mod_cast hk
  have hk0 : (0 : ℚ) ≤ (k : ℚ) := Nat.cast_nonneg k
  have hk1n : (k : ℚ) + 1 ≤ (n : ℚ) := by
    have h1 : (k + 1 : ℕ) ≤ n := hk
    exact_mod_cast h1
  have hv2 : isValid W H ((k : ℚ)) (-1 : ℚ) = false := by
    simp only [isValid, decide_eq_false_iff_not]
    rintro ⟨_, _, h3, _⟩
    linarith
  have hv3 : isValid W H ((k : ℚ) + 1) (0 : ℚ) = true := by
    simp only [isValid, decide_eq_true_eq]
    exact ⟨by linarith, by linarith, by linarith, by linarith⟩
  unfold neighborsOf dirs
  simp only [List.filterMap_cons, List.filterMap_nil, Bool.not_false, Bool.and_true,
    add_zero, zero_add, hv2, hv3]
  by_cases hH1 : (1 : ℚ) < H
  · have hv1 : isValid W H ((k : ℚ)) (1 : ℚ) = true := by
      simp only [isValid, decide_eq_true_eq]
      exact ⟨by linarith, by linarith, by linarith, by linarith⟩
    rw [if_pos hH1]
    by_cases hkp : 0 < k
    · have hkq : (1 : ℚ) ≤ (k : ℚ) := by exact_mod_cast hkp
      have hv4 : isValid W H ((k : ℚ) + -1) (0 : ℚ) = true := by
        simp only [isValid, decide_eq_true_eq]
        exact ⟨by linarith, by linarith, by linarith, by linarith⟩
      rw [if_pos hkp]
      simp [hv1, hv4]
    · have hknt : ¬ (1 : ℚ) ≤ (k : ℚ) := by
        intro hcon
        have h1 : 1 ≤ k := by exact_mod_cast hcon
        omega
      have hv4 : isValid W H ((k : ℚ) + -1) (0 : ℚ) = false := by
        simp only [isValid, decide_eq_false_iff_not]
        rintro ⟨h1, _, _, _⟩
        exact hknt (by linarith)
      rw [if_neg hkp]
      simp [hv1, hv4]
  · have hv1 : isValid W H ((k : ℚ)) (1 : ℚ) = false := by
      simp only [isValid, decide_eq_false_iff_not]
      rintro ⟨_, _, _, h4⟩
      exact hH1 (by linarith)
    rw [if_neg hH1]
    by_cases hkp : 0 < k
    · have hkq : (1 : ℚ) ≤ (k : ℚ) := by exact_mod_cast hkp
      have hv4 : isValid W H ((k : ℚ) + -1) (0 : ℚ) = true := by
        simp only [isValid, decide_eq_true_eq]
        exact ⟨by linarith, by linarith, by linarith, by linarith⟩
      rw [if_pos hkp]
      simp [hv1, hv4]
    · have hknt : ¬ (1 : ℚ) ≤ (k : ℚ) := by
        intro hcon
        have h1 : 1 ≤ k := by exact_mod_cast hcon
        omega
      have hv4 : isValid W H ((k : ℚ) + -1) (0 : ℚ) = false := by
        simp only [isValid, decide_eq_false_iff_not]
        rintro ⟨h1, _, _, _⟩
        exact hknt (by linarith)
      rw [if_neg hkp]
      simp [hv1, hv4]

theorem aloop_expand {W H : ℚ} {blocked : ℚ → ℚ → Bool} {endP : Pt} {maxN fuel : ℕ}
    {opn closed : List Pt} {nodes : List (Pt × SNode)} {explored : ℕ} {cur : Pt}
    {rest : List Pt} {nd : SNode}
    (hs : sortByF nodes opn = cur :: rest) (hne : cur ≠ endP)
    (hm : ¬ maxN < explored + 1) (hfind : assocFind nodes cur = some nd) :
    aloop W H blocked endP maxN (fuel + 1) opn closed nodes explored =
      aloop W H blocked endP maxN fuel
        ((neighborsOf W H blocked cur).foldl
          (relaxNeighbor endP cur nd.g (cur :: closed)) (rest, nodes)).1
        (cur :: closed)
        ((neighborsOf W H blocked cur).foldl
          (relaxNeighbor endP cur nd.g (cur :: closed)) (rest, nodes)).2
        (explored + 1) := by
  simp only [aloop, hs, hfind]
  rw [if_neg hne, if_neg hm]

theorem aloop_goal {W H : ℚ} {blocked : ℚ → ℚ → Bool} {endP : Pt} {maxN fuel : ℕ}
    {opn closed : List Pt} {nodes : List (Pt × SNode)} {explored : ℕ} {rest : List Pt}
    (hs : sortByF nodes opn = endP :: rest) :
    aloop W H blocked endP maxN (fuel + 1) opn closed nodes explored =
      some (some (reconstructPath nodes endP)) := by
  simp only [aloop, hs]
  exact if_pos trivial

theorem closedK_mem_of_lt : ∀ {k i : ℕ}, i < k → (((i : ℚ), (0 : ℚ)) : Pt) ∈ closedK k := by
  intro k
  induction k with
  | zero => intro i h; exact absurd h (Nat.not_lt_zero i)
  | succ k ih =>
    intro i h
    rcases Nat.lt_succ_iff_lt_or_eq.mp h with h | h
    · exact List.mem_cons_of_mem _ (ih h)
    · subst h
      exact List.mem_cons_self _ _

theorem aloop_step {W H : ℚ} {n k maxN fuel : ℕ}
    (hk : k < n) (hn : (n : ℚ) < W) (hH : 0 < H) (hcap : k + 1 ≤ maxN) :
    aloop W H (fun _ _ => false) ((n : ℚ), (0 : ℚ)) maxN (fuel + 1)
        (opnK H k) (closedK k) (nodesK n H k) k =
      aloop W H (fun _ _ => false) ((n : ℚ), (0 : ℚ)) maxN fuel
        (opnK H (k + 1)) (closedK (k + 1)) (nodesK n H (k + 1)) (k + 1) := by
  have hkn : k ≤ n := hk.le
  have hne : (((k : ℚ), (0 : ℚ)) : Pt) ≠ ((n : ℚ), (0 : ℚ)) := by
    intro h
    exact absurd (Nat.cast_inj.mp (congrArg Prod.fst h)) (Nat.ne_of_lt hk)
  rw [aloop_expand (sortK hkn) hne (by omega) (find_axis (le_refl k)),
    neighbors_axis hk hn hH, show (axisE n k).2.g = (k : ℚ) from rfl]
  have hm1 : (((k : ℚ), (1 : ℚ)) : Pt) ∉ ((k : ℚ), (0 : ℚ)) :: closedK k := by
    intro hmem
    rcases List.mem_cons.mp hmem with h | h
    · have h2 := congrArg Prod.snd h
      norm_num at h2
    · obtain ⟨i, _, hq⟩ := closedK_mem _ h
      have h2 := congrArg Prod.snd hq
      norm_num at h2
  have hm2 : (((k : ℚ) + 1, (0 : ℚ)) : Pt) ∉ ((k : ℚ), (0 : ℚ)) :: closedK k := by
    intro hmem
    rcases List.mem_cons.mp hmem with h | h
    · simp only [Prod.mk.injEq] at h
      have h1 := h.1
      linarith
    · obtain ⟨i, hik, hq⟩ := closedK_mem _ h
      simp only [Prod.mk.injEq] at hq
      have h3 : (i : ℚ) < (k : ℚ) := by exact_mod_cast hik
      have h1 := hq.1
      linarith
  have haxC : ((((k : ℚ) + 1, (0 : ℚ)) : Pt),
        (⟨(k : ℚ) + 1, heuristic ((k : ℚ) + 1, (0 : ℚ)) ((n : ℚ), (0 : ℚ)),
          some ((k : ℚ), (0 : ℚ))⟩ : SNode)) = axisE n (k + 1) := by
    unfold axisE
    rw [if_neg (Nat.succ_ne_zero k)]
    push_cast
    rfl
  by_cases hH1 : (1 : ℚ) < H
  · simp only [if_pos hH1]
    have h1 : relaxNeighbor ((n : ℚ), (0 : ℚ)) ((k : ℚ), (0 : ℚ)) (k : ℚ)
          (((k : ℚ), (0 : ℚ)) :: closedK k)
          ((List.range k).map (fun i : ℕ => ((i : ℚ), (1 : ℚ))), nodesK n H k)
          ((k : ℚ), (1 : ℚ)) =
        ((List.range k).map (fun i : ℕ => ((i : ℚ), (1 : ℚ))) ++ [((k : ℚ), (1 : ℚ))],
          nodesK n H k ++ [sideE n k]) := by
      unfold relaxNeighbor
      rw [if_neg hm1]
      dsimp only
      rw [find_fresh_side]
      rfl
    have hfind2 : assocFind (nodesK n H k ++ [sideE n k]) ((k : ℚ) + 1, (0 : ℚ)) = none := by
      apply assocFind_none_of
      intro e he
      rcases List.mem_append.mp he with he | he
      · exact fresh_axis_key e he
      · rw [List.mem_singleton] at he
        subst he
        intro heq
        have h2 := congrArg Prod.snd heq
        simp [sideE] at h2
    have h2 : relaxNeighbor ((n : ℚ), (0 : ℚ)) ((k : ℚ), (0 : ℚ)) (k : ℚ)
          (((k : ℚ), (0 : ℚ)) :: closedK k)
          ((List.range k).map (fun i : ℕ => ((i : ℚ), (1 : ℚ))) ++ [((k : ℚ), (1 : ℚ))],
            nodesK n H k ++ [sideE n k])
          ((k : ℚ) + 1, (0 : ℚ)) =
        ((List.range k).map (fun i : ℕ => ((i : ℚ), (1 : ℚ))) ++ [((k : ℚ), (1 : ℚ))] ++
            [((k : ℚ) + 1, (0 : ℚ))],
          nodesK n H k ++ [sideE n k] ++
            [((((k : ℚ) + 1, (0 : ℚ)) : Pt),
              (⟨(k : ℚ) + 1, heuristic ((k : ℚ) + 1, (0 : ℚ)) ((n : ℚ), (0 : ℚ)),
                some ((k : ℚ), (0 : ℚ))⟩ : SNode))]) := by
      unfold relaxNeighbor
      rw [if_neg hm2]
      dsimp only
      rw [hfind2]
    have hopn : (List.range k).map (fun i : ℕ => ((i : ℚ), (1 : ℚ))) ++ [((k : ℚ), (1 : ℚ))] ++
          [((k : ℚ) + 1, (0 : ℚ))] = opnK H (k + 1) := by
      unfold opnK
      rw [if_pos hH1, List.range_succ]
      simp only [List.map_append, List.map_cons, List.map_nil]
      rw [show ((k + 1 : ℕ) : ℚ) = (k : ℚ) + 1 from by norm_cast]
    have hnodes : nodesK n H k ++ [sideE n k] ++
          [((((k : ℚ) + 1, (0 : ℚ)) : Pt),
            (⟨(k : ℚ) + 1, heuristic ((k : ℚ) + 1, (0 : ℚ)) ((n : ℚ), (0 : ℚ)),
              some ((k : ℚ), (0 : ℚ))⟩ : SNode))] = nodesK n H (k + 1) := by
      simp only [nodesK, sideList, if_pos hH1]
      rw [haxC, List.append_assoc]
    by_cases hkp : 0 < k
    · simp only [if_pos hkp]
      have hpt : (((k : ℚ) + -1, (0 : ℚ)) : Pt) = (((k - 1 : ℕ) : ℚ), (0 : ℚ)) := by
        simp only [Prod.mk.injEq]
        refine ⟨?_, trivial⟩
        rw [Nat.cast_sub (by omega : 1 ≤ k), Nat.cast_one]
        ring
      have hm3 : (((k : ℚ) + -1, (0 : ℚ)) : Pt) ∈ ((k : ℚ), (0 : ℚ)) :: closedK k := by
        rw [hpt]
        exact List.mem_cons_of_mem _ (closedK_mem_of_lt (by omega))
      have h3 : relaxNeighbor ((n : ℚ), (0 : ℚ)) ((k : ℚ), (0 : ℚ)) (k : ℚ)
            (((k : ℚ), (0 : ℚ)) :: closedK k)
            ((List.range k).map (fun i : ℕ => ((i : ℚ), (1 : ℚ))) ++ [((k : ℚ), (1 : ℚ))] ++
                [((k : ℚ) + 1, (0 : ℚ))],
              nodesK n H k ++ [sideE n k] ++
                [((((k : ℚ) + 1, (0 : ℚ)) : Pt),
                  (⟨(k : ℚ) + 1, heuristic ((k : ℚ) + 1, (0 : ℚ)) ((n : ℚ), (0 : ℚ)),
                    some ((k : ℚ), (0 : ℚ))⟩ : SNode))])
            ((k : ℚ) + -1, (0 : ℚ)) =
          ((List.range k).map (fun i : ℕ => ((i : ℚ), (1 : ℚ))) ++ [((k : ℚ), (1 : ℚ))] ++
              [((k : ℚ) + 1, (0 : ℚ))],
            nodesK n H k ++ [sideE n k] ++
              [((((k : ℚ) + 1, (0 : ℚ)) : Pt),
                (⟨(k : ℚ) + 1, heuristic ((k : ℚ) + 1, (0 : ℚ)) ((n : ℚ), (0 : ℚ)),
                  some ((k : ℚ), (0 : ℚ))⟩ : SNode))]) := by
        unfold relaxNeighbor
        rw [if_pos hm3]
      simp only [List.singleton_append, List.foldl_cons, List.foldl_nil]
      rw [h1, h2, h3]
      dsimp only
      rw [hopn, hnodes]
      rfl
    · simp only [if_neg hkp, List.append_nil]
      simp only [List.singleton_append, List.foldl_cons, List.foldl_nil]
      rw [h1, h2]
      dsimp only
      rw [hopn, hnodes]
      rfl
  · simp only [if_neg hH1, List.nil_append]
    have hfind2 : assocFind (nodesK n H k) ((k : ℚ) + 1, (0 : ℚ)) = none :=
      assocFind_none_of fresh_axis_key
    have h2 : relaxNeighbor ((n : ℚ), (0 : ℚ)) ((k : ℚ), (0 : ℚ)) (k : ℚ)
          (((k : ℚ), (0 : ℚ)) :: closedK k) (([] : List Pt), nodesK n H k)
          ((k : ℚ) + 1, (0 : ℚ)) =
        ([((k : ℚ) + 1, (0 : ℚ))],
          nodesK n H k ++
            [((((k : ℚ) + 1, (0 : ℚ)) : Pt),
              (⟨(k : ℚ) + 1, heuristic ((k : ℚ) + 1, (0 : ℚ)) ((n : ℚ), (0 : ℚ)),
                some ((k : ℚ), (0 : ℚ))⟩ : SNode))]) := by
      unfold relaxNeighbor
      rw [if_neg hm2]
      dsimp only
      rw [hfind2]
      rfl
    have hopn : [((k : ℚ) + 1, (0 : ℚ))] = opnK H (k + 1) := by
      unfold opnK
      rw [if_neg hH1, show ((k + 1 : ℕ) : ℚ) = (k : ℚ) + 1 from by norm_cast]
      rfl
    have hnodes : nodesK n H k ++
          [((((k : ℚ) + 1, (0 : ℚ)) : Pt),
            (⟨(k : ℚ) + 1, heuristic ((k : ℚ) + 1, (0 : ℚ)) ((n : ℚ), (0 : ℚ)),
              some ((k : ℚ), (0 : ℚ))⟩ : SNode))] = nodesK n H (k + 1) := by
      simp only [nodesK, sideList, if_neg hH1, List.nil_append]
      rw [haxC]
    by_cases hkp : 0 < k
    · simp only [if_pos hkp]
      have hpt : (((k : ℚ) + -1, (0 : ℚ)) : Pt) = (((k - 1 : ℕ) : ℚ), (0 : ℚ)) := by
        simp only [Prod.mk.injEq]
        refine ⟨?_, trivial⟩
        rw [Nat.cast_sub (by omega : 1 ≤ k), Nat.cast_one]
        ring
      have hm3 : (((k : ℚ) + -1, (0 : ℚ)) : Pt) ∈ ((k : ℚ), (0 : ℚ)) :: closedK k := by
        rw [hpt]
        exact List.mem_cons_of_mem _ (closedK_mem_of_lt (by omega))
      have h3 : relaxNeighbor ((n : ℚ), (0 : ℚ)) ((k : ℚ), (0 : ℚ)) (k : ℚ)
            (((k : ℚ), (0 : ℚ)) :: closedK k)
            ([((k : ℚ) + 1, (0 : ℚ))],
              nodesK n H k ++
                [((((k : ℚ) + 1, (0 : ℚ)) : Pt),
                  (⟨(k : ℚ) + 1, heuristic ((k : ℚ) + 1, (0 : ℚ)) ((n : ℚ), (0 : ℚ)),
                    some ((k : ℚ), (0 : ℚ))⟩ : SNode))])
            ((k : ℚ) + -1, (0 : ℚ)) =
          ([((k : ℚ) + 1, (0 : ℚ))],
            nodesK n H k ++
              [((((k : ℚ) + 1, (0 : ℚ)) : Pt),
                (⟨(k : ℚ) + 1, heuristic ((k : ℚ) + 1, (0 : ℚ)) ((n : ℚ), (0 : ℚ)),
                  some ((k : ℚ), (0 : ℚ))⟩ : SNode))]) := by
        unfold relaxNeighbor
        rw [if_pos hm3]
      simp only [List.singleton_append, List.foldl_cons, List.foldl_nil]
      rw [h2, h3]
      dsimp only
      rw [hopn, hnodes]
      rfl
    · simp only [if_neg hkp, List.append_nil]
      simp only [List.foldl_cons, List.foldl_nil]
      rw [h2]
      dsimp only
      rw [hopn, hnodes]
      rfl

theorem aloop_run {W H : ℚ} {n maxN : ℕ} (hn : (n : ℚ) < W) (hH : 0 < H)
    (hcap : n ≤ maxN) :
    ∀ (j k fuel : ℕ), k + j = n → j + 1 ≤ fuel →
      aloop W H (fun _ _ => false) ((n : ℚ), (0 : ℚ)) maxN fuel
          (opnK H k) (closedK k) (nodesK n H k) k =
        some (some (reconstructPath (nodesK n H n) ((n : ℚ), (0 : ℚ)))) := by
  intro j
  induction j with
  | zero =>
    intro k fuel hkj hfuel
    have hk : k = n := by omega
    subst hk
    obtain ⟨f, rfl⟩ : ∃ f, fuel = f + 1 := ⟨fuel - 1, by omega⟩
    exact aloop_goal (sortK (le_refl k))
  | succ j ih =>
    intro k fuel hkj hfuel
    have hk : k < n := by omega
    obtain ⟨f, rfl⟩ : ∃ f, fuel = f + 1 := ⟨fuel - 1, by omega⟩
    rw [aloop_step hk hn hH (by omega)]
    exact ih (k + 1) f (by omega) (by omega)

theorem nodesK_len {n : ℕ} {H : ℚ} : ∀ k, k + 1 ≤ (nodesK n H k).length := by
  intro k
  induction k with
  | zero => simp [nodesK]
  | succ k ih =>
    simp only [nodesK, List.length_append, List.length_singleton]
    omega

theorem walk_axis {n : ℕ} {H : ℚ} :
    ∀ (i fuel : ℕ), i ≤ n → i + 1 ≤ fuel →
      walkParents (nodesK n H n) fuel ((i : ℚ), (0 : ℚ)) =
        ((List.range (i + 1)).reverse).map (fun j : ℕ => ((j : ℚ), (0 : ℚ))) := by
  intro i
  induction i with
  | zero =>
    intro fuel _ hfuel
    obtain ⟨f, rfl⟩ : ∃ f, fuel = f + 1 := ⟨fuel - 1, by omega⟩
    simp only [walkParents]
    rw [find_axis (Nat.zero_le n)]
    dsimp only
    rw [show (axisE n 0).2.parent = none from rfl]
    simp [show List.range 1 = [0] from by rfl]
  | succ i ih =>
    intro fuel hin hfuel
    obtain ⟨f, rfl⟩ : ∃ f, fuel = f + 1 := ⟨fuel - 1, by omega⟩
    simp only [walkParents]
    rw [find_axis hin]
    dsimp only
    have hpar : (axisE n (i + 1)).2.parent = some (((i : ℕ) : ℚ), (0 : ℚ)) := by
      unfold axisE
      rw [if_neg (Nat.succ_ne_zero i)]
      dsimp only
      simp only [Nat.add_sub_cancel]
    rw [hpar]
    dsimp only
    rw [ih f (Nat.le_of_succ_le hin) (by omega)]
    rw [List.range_succ (n := i + 1)]
    simp only [List.reverse_append, List.reverse_cons, List.reverse_nil, List.nil_append,
      List.singleton_append, List.map_cons]

theorem map_congr_mem {α β : Type} {f g : α → β} :
    ∀ {l : List α}, (∀ a ∈ l, f a = g a) → l.map f = l.map g := by
  intro l
  induction l with
  | nil => intro _; rfl
  | cons a l ih =>
    intro h
    simp only [List.map_cons]
    rw [h a (List.mem_cons_self a l), ih (fun x hx => h x (List.mem_cons_of_mem a hx))]

theorem reconstruct_axis {n : ℕ} {H : ℚ} :
    reconstructPath (nodesK n H n) ((n : ℚ), (0 : ℚ)) =
      (List.range n).map (fun i : ℕ => ((i : ℚ) + 1, (0 : ℚ))) := by
  unfold reconstructPath
  rw [walk_axis n ((nodesK n H n).length + 1) (le_refl n) (by
    have h1 := nodesK_len (n := n) (H := H) n
    omega)]
  rw [List.map_reverse, List.reverse_reverse]
  rw [List.range_succ_eq_map]
  simp only [List.map_cons, List.map_map, List.drop_succ_cons, List.drop_zero]
  apply map_congr_mem
  intro a _
  simp only [Function.comp_apply, Prod.mk.injEq]
  refine ⟨?_, trivial⟩
  push_cast
  ring

theorem findPath_openGrid {W H : ℚ} {n maxN : ℕ}
    (hn : (n : ℚ) < W) (hH : 0 < H) (hcap : n ≤ maxN) :
    findPath W H (fun _ _ => false) ((0 : ℚ), (0 : ℚ)) ((n : ℚ), (0 : ℚ)) maxN =
      some ((List.range n).map (fun i : ℕ => ((i : ℚ) + 1, (0 : ℚ)))) := by
  have hn0 : (0 : ℚ) ≤ (n : ℚ) := Nat.cast_nonneg n
  unfold findPath
  dsimp only
  have hv1 : isValid W H (0 : ℚ) (0 : ℚ) = true := by
    simp only [isValid, decide_eq_true_eq]
    exact ⟨le_refl 0, by linarith, le_refl 0, hH⟩
  have hv2 : isValid W H ((n : ℚ)) (0 : ℚ) = true := by
    simp only [isValid, decide_eq_true_eq]
    exact ⟨hn0, hn, le_refl 0, hH⟩
  rw [hv1, hv2]
  simp only [Bool.not_true, Bool.or_self]
  rw [if_neg Bool.false_ne_true, if_neg Bool.false_ne_true]
  rw [show ([((0 : ℚ), (0 : ℚ))] : List Pt) = opnK H 0 from by
      simp [opnK, List.range_zero],
    show ([] : List Pt) = closedK 0 from rfl,
    show ([((((0 : ℚ), (0 : ℚ)) : Pt),
        (⟨0, heuristic ((0 : ℚ), (0 : ℚ)) ((n : ℚ), (0 : ℚ)), none⟩ : SNode))]) =
        nodesK n H 0 from by simp [nodesK, axisE]]
  rw [aloop_run hn hH hcap n 0 (maxN + 2) (by omega) (by omega)]
  rw [Option.getD_some, reconstruct_axis]

theorem chain_axis : ∀ (m s : ℕ),
    List.Chain unitStep ((s : ℚ), (0 : ℚ))
      ((List.range m).map (fun i : ℕ => (((s + i : ℕ) : ℚ) + 1, (0 : ℚ)))) := by
  intro m
  induction m with
  | zero => intro s; exact List.Chain.nil
  | succ m ih =>
    intro s
    rw [List.range_succ_eq_map]
    simp only [List.map_cons, List.map_map]
    refine List.Chain.cons ?_ ?_
    · left
      constructor
      · dsimp only
        rw [show (((s + 0 : ℕ) : ℚ) + 1 - (s : ℚ)) = 1 from by push_cast; ring]
        norm_num [jsAbs]
      · rfl
    · have hh : (((s + 0 : ℕ) : ℚ) + 1) = ((s + 1 : ℕ) : ℚ) := by push_cast; ring
      rw [hh]
      have hmap : List.map ((fun i : ℕ => (((s + i : ℕ) : ℚ) + 1, (0 : ℚ))) ∘ Nat.succ)
            (List.range m) =
          List.map (fun i : ℕ => ((((s + 1) + i : ℕ) : ℚ) + 1, (0 : ℚ))) (List.range m) := by
        apply map_congr_mem
        intro a _
        simp only [Function.comp_apply, Prod.mk.injEq]
        refine ⟨?_, trivial⟩
        push_cast
        ring
      rw [hmap]
      exact ih (s + 1)

/-- C2 — On an open grid where no tile is blocked, `findPath` from `(0,0)`
to `(n,0)` (with the goal in bounds and `n` within the node budget)
returns exactly the straight-line path of `n` points: the list has length
`n`, each point differs from the previous one by exactly one unit in
exactly one axis, and the start cell is excluded from the returned
list. -/
theorem findPath_open_grid_shortest (W H : ℚ) (n maxN : ℕ)
    (hn : (n : ℚ) < W) (hH : 0 < H) (hcap : n ≤ maxN) :
    findPath W H (fun _ _ => false) ((0 : ℚ), (0 : ℚ)) ((n : ℚ), (0 : ℚ)) maxN =
        some ((List.range n).map (fun i : ℕ => ((i : ℚ) + 1, (0 : ℚ)))) ∧
      ((List.range n).map (fun i : ℕ => ((i : ℚ) + 1, (0 : ℚ)))).length = n ∧
      List.Chain unitStep ((0 : ℚ), (0 : ℚ))
        ((List.range n).map (fun i : ℕ => ((i : ℚ) + 1, (0 : ℚ)))) ∧
      ((0 : ℚ), (0 : ℚ)) ∉ (List.range n).map (fun i : ℕ => ((i : ℚ) + 1, (0 : ℚ))) := by
  refine ⟨findPath_openGrid hn hH hcap, by simp, ?_, ?_⟩
  · have h0 := chain_axis n 0
    rw [show ((0 : ℕ) : ℚ) = (0 : ℚ) from Nat.cast_zero] at h0
    have hm : List.map (fun i : ℕ => (((0 + i : ℕ) : ℚ) + 1, (0 : ℚ))) (List.range n) =
        List.map (fun i : ℕ => ((i : ℚ) + 1, (0 : ℚ))) (List.range n) := by
      apply map_congr_mem
      intro a _
      simp only [Prod.mk.injEq]
      refine ⟨?_, trivial⟩
      push_cast
      ring
    rw [hm] at h0
    exact h0
  · intro hmem
    simp only [List.mem_map] at hmem
    obtain ⟨i, _, hi⟩ := hmem
    simp only [Prod.mk.injEq] at hi
    have h1 := hi.1
    have h2 : (0 : ℚ) ≤ (i : ℚ) := Nat.cast_nonneg i
    linarith

/-- Witness for C2: on the 3-wide, 1-high unblocked grid with node budget
2, the search from `(0,0)` to `(2,0)` returns the straight two-step
path. -/
theorem findPath_open_grid_shortest_witness :
    ((2 : ℕ) : ℚ) < 3 ∧ (0 : ℚ) < 1 ∧ (2 : ℕ) ≤ 2 ∧
      (findPath 3 1 (fun _ _ => false) ((0 : ℚ), (0 : ℚ)) (((2 : ℕ) : ℚ), (0 : ℚ)) 2 =
          some ((List.range 2).map (fun i : ℕ => ((i : ℚ) + 1, (0 : ℚ)))) ∧
        ((List.range 2).map (fun i : ℕ => ((i : ℚ) + 1, (0 : ℚ)))).length = 2 ∧
        List.Chain unitStep ((0 : ℚ), (0 : ℚ))
          ((List.range 2).map (fun i : ℕ => ((i : ℚ) + 1, (0 : ℚ)))) ∧
        ((0 : ℚ), (0 : ℚ)) ∉ (List.range 2).map (fun i : ℕ => ((i : ℚ) + 1, (0 : ℚ)))) :=
  ⟨by norm_num, by norm_num, le_refl 2,
    findPath_open_grid_shortest 3 1 2 2 (by norm_num) (by norm_num) (le_refl 2)⟩

end Pathfinding

/-! ### The Movement System tick (C1) -/

namespace Movement

/-- A target freshly acquired during an agent's tick transform always
passed the `isTileBusy` check against the tick-start occupancy
snapshot, evaluated at the agent's end-of-tick position. -/
theorem updateCreature_fresh_target (dt : ℚ) (mapSize : ℕ) (chk : ℚ → ℚ → Bool)
    (occupied : List Pt) (rand : ℕ → ℚ) (ridx : ℕ) (c0 c' : Creature) (r : ℕ)
    (tx ty : ℚ)
    (heq : updateCreature dt mapSize chk occupied rand ridx c0 = (c', r))
    (hx : c'.targetX = some tx) (hy : c'.targetY = some ty)
    (hnew : ((some tx : Option ℚ), (some ty : Option ℚ)) ≠ (c0.targetX, c0.targetY)) :
    isTileBusy chk occupied tx ty c'.x c'.y = false := by
  simp only [updateCreature] at heq
  split at heq
  · split at heq
    · split at heq
      · split at heq
        · injection heq with h1 h2
          subst h1
          simp at hx
        · rename_i hbusy
          injection heq with h1 h2
          subst h1
          dsimp only at hx hy
          injection hx with hx'
          injection hy with hy'
          subst hx'
          subst hy'
          dsimp only
          exact Bool.eq_false_iff.mpr hbusy
      · injection heq with h1 h2
        subst h1
        simp at hx
    · injection heq with h1 h2
      subst h1
      exact absurd (by simp only [Prod.mk.injEq]; exact ⟨hx.symm, hy.symm⟩) hnew
  · split at heq
    · split at heq
      · injection heq with h1 h2
        subst h1
        exact absurd (by simp only [Prod.mk.injEq]; exact ⟨hx.symm, hy.symm⟩) hnew
      · split at heq
        · split at heq
          · split at heq
            · injection heq with h1 h2
              subst h1
              exact absurd (by simp only [Prod.mk.injEq]; exact ⟨hx.symm, hy.symm⟩) hnew
            · rename_i hbusy
              injection heq with h1 h2
              subst h1
              dsimp only at hx hy
              injection hx with hx'
              injection hy with hy'
              subst hx'
              subst hy'
              dsimp only
              exact Bool.eq_false_iff.mpr hbusy
          · injection heq with h1 h2
            subst h1
            exact absurd (by simp only [Prod.mk.injEq]; exact ⟨hx.symm, hy.symm⟩) hnew
          · injection heq with h1 h2
            subst h1
            exact absurd (by simp only [Prod.mk.injEq]; exact ⟨hx.symm, hy.symm⟩) hnew
        · injection heq with h1 h2
          subst h1
          exact absurd (by simp only [Prod.mk.injEq]; exact ⟨hx.symm, hy.symm⟩) hnew
    · injection heq with h1 h2
      subst h1
      exact absurd (by simp only [Prod.mk.injEq]; exact ⟨hx.symm, hy.symm⟩) hnew

theorem updateCreaturesAux_mem (dt : ℚ) (mapSize : ℕ) (chk : ℚ → ℚ → Bool)
    (occupied : List Pt) (rand : ℕ → ℚ) :
    ∀ (l : List Creature) (ridx : ℕ),
      ∀ c' ∈ updateCreaturesAux dt mapSize chk occupied rand ridx l,
      ∃ c0 ∈ l, ∃ rdx rr : ℕ,
        updateCreature dt mapSize chk occupied rand rdx c0 = (c', rr) := by
  intro l
  induction l with
  | nil => intro ridx c' hc; simp [updateCreaturesAux] at hc
  | cons a l ih =>
    intro ridx c' hc
    simp only [updateCreaturesAux] at hc
    rcases List.mem_cons.mp hc with h | h
    · subst h
      exact ⟨a, List.mem_cons_self a l, ridx,
        (updateCreature dt mapSize chk occupied rand ridx a).2, rfl⟩
    · obtain ⟨c0, hc0, rdx, rr, heq2⟩ := ih _ c' h
      exact ⟨c0, List.mem_cons_of_mem a hc0, rdx, rr, heq2⟩

end Movement

/-- C1 — amended: each agent a tick hands a freshly acquired target
(one it did not already hold when the tick began) obtained that target
only after it passed the `isTileBusy` check against the occupancy
snapshot taken once at tick start: the tile is not statically blocked,
and it is not claimed in the snapshot by anything other than the agent's
own tile.  The snapshot is never updated during the tick, so this is the
system's only mutual-exclusion mechanism. -/
theorem updateCreatures_target_discipline (creatures : List Creature) (dt : ℚ)
    (mapSize : ℕ) (chk : ℚ → ℚ → Bool) (rand : ℕ → ℚ) :
    ∀ c' ∈ Movement.updateCreatures creatures dt mapSize chk rand,
      ∃ c0 ∈ creatures,
        ∀ tx ty : ℚ, c'.targetX = some tx → c'.targetY = some ty →
          ((some tx : Option ℚ), (some ty : Option ℚ)) ≠ (c0.targetX, c0.targetY) →
          Movement.isTileBusy chk (Movement.occupiedSet creatures) tx ty c'.x c'.y =
            false := by
  intro c' hc
  unfold Movement.updateCreatures at hc
  obtain ⟨c0, hc0, rdx, rr, heq2⟩ :=
    Movement.updateCreaturesAux_mem dt mapSize chk (Movement.occupiedSet creatures) rand
      creatures 0 c' hc
  refine ⟨c0, hc0, ?_⟩
  intro tx ty hx hy hnew
  exact Movement.updateCreature_fresh_target dt mapSize chk
    (Movement.occupiedSet creatures) rand rdx c0 c' rr tx ty heq2 hx hy hnew

/-- Witness for the amended C1 at a single moving agent completing a step
of its path in one `dt = 1000` tick. -/
theorem updateCreatures_target_discipline_witness :
    ((Movement.updateCreature 1000 10 (fun _ _ => false)
        (Movement.occupiedSet [agentA]) (fun _ => 0) 0 agentA).1 ∈
      Movement.updateCreatures [agentA] 1000 10 (fun _ _ => false) (fun _ => 0)) ∧
    (∃ c0 ∈ [agentA],
      ∀ tx ty : ℚ,
        (Movement.updateCreature 1000 10 (fun _ _ => false)
            (Movement.occupiedSet [agentA]) (fun _ => 0) 0 agentA).1.targetX = some tx →
        (Movement.updateCreature 1000 10 (fun _ _ => false)
            (Movement.occupiedSet [agentA]) (fun _ => 0) 0 agentA).1.targetY = some ty →
        ((some tx : Option ℚ), (some ty : Option ℚ)) ≠ (c0.targetX, c0.targetY) →
        Movement.isTileBusy (fun _ _ => false) (Movement.occupiedSet [agentA]) tx ty
            (Movement.updateCreature 1000 10 (fun _ _ => false)
              (Movement.occupiedSet [agentA]) (fun _ => 0) 0 agentA).1.x
            (Movement.updateCreature 1000 10 (fun _ _ => false)
              (Movement.occupiedSet [agentA]) (fun _ => 0) 0 agentA).1.y = false) :=
  ⟨List.mem_cons_self _ _,
    updateCreatures_target_discipline [agentA] 1000 10 (fun _ _ => false) (fun _ => 0)
      (Movement.updateCreature 1000 10 (fun _ _ => false)
        (Movement.occupiedSet [agentA]) (fun _ => 0) 0 agentA).1
      (List.mem_cons_self _ _)⟩

/-- C1 counterexample: the occupancy snapshot is taken once per tick and
never updated while the agents are processed in order, so two distinct
moving agents whose paths both select the same free tile `(3,3)` in the
same tick BOTH acquire it as their target: after the tick both hold
target `(3,3)`, `(3,3)` is neither agent's rounded resting tile, and
neither agent reverts to IDLE. -/
theorem movement_double_claim_counterexample :
    Movement.updateCreatures [agentA, agentB] 1000 10 (fun _ _ => false) (fun _ => 0) =
        [agentA2, agentB2] ∧
      agentA2.targetX = some 3 ∧ agentA2.targetY = some 3 ∧
      agentB2.targetX = some 3 ∧ agentB2.targetY = some 3 ∧
      agentA2 ≠ agentB2 ∧
      (((jsRound agentA2.x : ℤ) : ℚ), ((jsRound agentA2.y : ℤ) : ℚ)) ≠ ((3 : ℚ), (3 : ℚ)) ∧
      (((jsRound agentB2.x : ℤ) : ℚ), ((jsRound agentB2.y : ℤ) : ℚ)) ≠ ((3 : ℚ), (3 : ℚ)) ∧
      agentA2.state = some .MOVING ∧ agentB2.state = some .MOVING := by
  have h3 : jsRound 3 = 3 := by unfold jsRound; norm_num
  have h1 : jsRound 1 = 1 := by unfold jsRound; norm_num
  have h2 : jsRound 2 = 2 := by unfold jsRound; norm_num
  have hocc : Movement.occupiedSet [agentA, agentB] =
      [((3 : ℚ), (1 : ℚ)), ((3 : ℚ), (2 : ℚ)), ((1 : ℚ), (3 : ℚ)), ((2 : ℚ), (3 : ℚ))] := by
    simp only [Movement.occupiedSet, agentA, agentB, List.flatMap_cons, List.flatMap_nil]
    rw [h3, h1]
    norm_num
  have hbusyA : Movement.isTileBusy (fun _ _ => false)
      [((3 : ℚ), (1 : ℚ)), ((3 : ℚ), (2 : ℚ)), ((1 : ℚ), (3 : ℚ)), ((2 : ℚ), (3 : ℚ))]
      3 3 3 2 = false := by
    unfold Movement.isTileBusy
    simp only [Bool.false_or]
    rw [decide_eq_false (show ¬ (((3 : ℚ), (3 : ℚ)) ∈
      [((3 : ℚ), (1 : ℚ)), ((3 : ℚ), (2 : ℚ)), ((1 : ℚ), (3 : ℚ)), ((2 : ℚ), (3 : ℚ))])
      from by norm_num [Prod.ext_iff])]
    simp
  have hbusyB : Movement.isTileBusy (fun _ _ => false)
      [((3 : ℚ), (1 : ℚ)), ((3 : ℚ), (2 : ℚ)), ((1 : ℚ), (3 : ℚ)), ((2 : ℚ), (3 : ℚ))]
      3 3 2 3 = false := by
    unfold Movement.isTileBusy
    simp only [Bool.false_or]
    rw [decide_eq_false (show ¬ (((3 : ℚ), (3 : ℚ)) ∈
      [((3 : ℚ), (1 : ℚ)), ((3 : ℚ), (2 : ℚ)), ((1 : ℚ), (3 : ℚ)), ((2 : ℚ), (3 : ℚ))])
      from by norm_num [Prod.ext_iff])]
    simp
  have hA : Movement.updateCreature 1000 10 (fun _ _ => false)
      [((3 : ℚ), (1 : ℚ)), ((3 : ℚ), (2 : ℚ)), ((1 : ℚ), (3 : ℚ)), ((2 : ℚ), (3 : ℚ))]
      (fun _ => 0) 0 agentA = (agentA2, 0) := by
    unfold Movement.updateCreature agentA
    dsimp only [Option.getD]
    rw [if_pos (show (1 : ℚ) ≤ 9/10 + 1000 / 1000 * Movement.MOVE_SPEED * 1 from by
      norm_num [Movement.MOVE_SPEED])]
    rw [hbusyA, if_neg Bool.false_ne_true]
    rfl
  have hB : Movement.updateCreature 1000 10 (fun _ _ => false)
      [((3 : ℚ), (1 : ℚ)), ((3 : ℚ), (2 : ℚ)), ((1 : ℚ), (3 : ℚ)), ((2 : ℚ), (3 : ℚ))]
      (fun _ => 0) 0 agentB = (agentB2, 0) := by
    unfold Movement.updateCreature agentB
    dsimp only [Option.getD]
    rw [if_pos (show (1 : ℚ) ≤ 9/10 + 1000 / 1000 * Movement.MOVE_SPEED * 1 from by
      norm_num [Movement.MOVE_SPEED])]
    rw [hbusyB, if_neg Bool.false_ne_true]
    rfl
  refine ⟨?_, rfl, rfl, rfl, rfl, ?_, ?_, ?_, rfl, rfl⟩
  · unfold Movement.updateCreatures
    rw [hocc]
    simp only [Movement.updateCreaturesAux]
    rw [hA]
    dsimp only
    rw [hB]
  · intro h
    exact absurd (congrArg Creature.id h) (by decide)
  · intro hcon
    rw [show agentA2.x = (3 : ℚ) from rfl, show agentA2.y = (2 : ℚ) from rfl,
      h3, h2] at hcon
    norm_num [Prod.ext_iff] at hcon
  · intro hcon
    rw [show agentB2.x = (2 : ℚ) from rfl, show agentB2.y = (3 : ℚ) from rfl,
      h3, h2] at hcon
    norm_num [Prod.ext_iff] at hcon

end Avatarium
